import Mathlib

/-!
Verification of the TourneyPro tournament engine.

This file gives a shallow embedding, in Lean 4, of the fixture-generation and
bracket-progression core of the TourneyPro backend
(backend/tournaments/tournament_formats.py, simulation_helpers.py, views.py)
and proves, or refutes, the specification claims about it.

Strings (Django CharFields, Python str) are modelled as List Char; Python
str.lower is Char.toLower mapped over the list, str.strip removes the ASCII
whitespace characters Python strips, and the substring / startswith tests are
modelled directly on lists. Database querysets are lists of match records; a
Python dict keyed by team id is a list of rows looked up by team id.
-/

/-! ### String machinery: Python str operations on List Char -/

/-- The characters removed by Python str.strip(): space, tab, LF, VT, FF, CR. -/
def isSpaceChar (c : Char) : Bool :=
  c.toNat = 32 || c.toNat = 9 || c.toNat = 10 || c.toNat = 11 || c.toNat = 12 || c.toNat = 13

/-- Python s.lower() (ASCII). -/
def lowerStr (s : List Char) : List Char := s.map Char.toLower

/-- Python s.strip(): drop leading and trailing whitespace. -/
def stripStr (s : List Char) : List Char :=
  ((s.dropWhile isSpaceChar).reverse.dropWhile isSpaceChar).reverse

/-- Python needle in hay (case-sensitive substring test). -/
def containsSub (hay needle : List Char) : Bool :=
  match hay with
  | [] => needle.isEmpty
  | _ :: t => needle.isPrefixOf hay || containsSub t needle

/-- Django pitch__icontains: case-insensitive substring test. -/
def icontains (hay needle : List Char) : Bool :=
  containsSub (lowerStr hay) (lowerStr needle)

/-- Django pitch__iexact: case-insensitive equality. -/
def iexact (a b : List Char) : Bool := lowerStr a = lowerStr b

/-- Python s.startswith(pre). -/
def startsWith (pre s : List Char) : Bool := pre.isPrefixOf s

/-- Shorthand to write character-list string constants. -/
def strL (s : String) : List Char := s.data

/-! ### Data model -/

/-- Match.status values. -/
inductive MStatus
  | scheduled
  | live
  | finished
deriving DecidableEq

/-- Tournament.status values. -/
inductive TStatus
  | draft
  | openFor
  | closed
  | completed
deriving DecidableEq

/-- A Match row as handled by tournament_formats.py: both teams always
present (they come from the input team list), identified by team id. -/
structure FMatch where
  home : Nat
  away : Nat
  homeScore : Option Nat
  awayScore : Option Nat
  status : MStatus
  pitch : List Char
  kickoff : Int
deriving DecidableEq

/-! ### tournament_formats.generate_round_robin_for_group -/

/-- tuple(sorted([a, b])). -/
def sortPair (a b : Nat) : Nat × Nat := if a ≤ b then (a, b) else (b, a)

/-- Python set.add on a set represented as a duplicate-free list. -/
def insertPairSet (s : List (Nat × Nat)) (p : Nat × Nat) : List (Nat × Nat) :=
  if p ∈ s then s else s ++ [p]

/-- The existing_pairs set built from the group's existing matches. -/
def existingPairsOf (ms : List FMatch) : List (Nat × Nat) :=
  ms.foldl (fun s m => insertPairSet s (sortPair m.home m.away)) []

/-- itertools.combinations(l, 2), in its order. -/
def combinations2 : List Nat → List (Nat × Nat)
  | [] => []
  | x :: xs => xs.map (fun y => (x, y)) ++ combinations2 xs

/-- Python set.add for a set of team ids. -/
def insertTeamSet (s : List Nat) (t : Nat) : List Nat :=
  if t ∈ s then s else s ++ [t]

/-- The greedy first-fit placement: walk the rounds in order and put the pair
into the first round whose team set contains neither team, updating that
round's team set; none if every round clashes. -/
def placePairFirstFit (t1 t2 : Nat) :
    List (List (Nat × Nat)) → List (List Nat) →
    Option (List (List (Nat × Nat)) × List (List Nat))
  | r :: rs, s :: ss =>
    if t1 ∉ s ∧ t2 ∉ s then
      some ((r ++ [(t1, t2)]) :: rs, insertTeamSet (insertTeamSet s t1) t2 :: ss)
    else
      match placePairFirstFit t1 t2 rs ss with
      | some (rs2, ss2) => some (r :: rs2, s :: ss2)
      | none => none
  | _, _ => none

/-- min(range(len rs), key=lambda i: len(rs[i])): first index of minimal length. -/
def argminLenAux : List (List (Nat × Nat)) → Nat → Nat → Nat → Nat
  | [], _, best, _ => best
  | r :: rs, i, best, bl =>
    if r.length < bl then argminLenAux rs (i + 1) i r.length
    else argminLenAux rs (i + 1) best bl

def argminLen : List (List (Nat × Nat)) → Nat
  | [] => 0
  | r :: rs => argminLenAux rs 1 0 r.length

/-- rounds[i].append(p). -/
def appendAt : List (List (Nat × Nat)) → Nat → (Nat × Nat) → List (List (Nat × Nat))
  | [], _, _ => []
  | r :: rs, 0, p => (r ++ [p]) :: rs
  | r :: rs, i + 1, p => r :: appendAt rs i p

/-- Scheduler state: rounds of pairs, per-round team sets, and whether the
fallback assign-to-least-loaded branch was ever taken. -/
structure SchedSt where
  rounds : List (List (Nat × Nat))
  roundTeams : List (List Nat)
  fb : Bool
deriving DecidableEq

/-- One iteration of the pair-assignment loop of generate_round_robin_for_group. -/
def schedStep (st : SchedSt) (pr : Nat × Nat) : SchedSt :=
  match placePairFirstFit pr.1 pr.2 st.rounds st.roundTeams with
  | some (rs, ss) => ⟨rs, ss, st.fb⟩
  | none => ⟨appendAt st.rounds (argminLen st.rounds) pr, st.roundTeams, true⟩

/-- The whole pair-assignment loop. -/
def scheduleAll (pairs : List (Nat × Nat)) (numRounds : Nat) : SchedSt :=
  pairs.foldl schedStep ⟨List.replicate numRounds [], List.replicate numRounds [], false⟩

/-- f-string "{group_name} - Round {round_number}". -/
def roundPitch (groupName : List Char) (rn : Int) : List Char :=
  groupName ++ strL " - Round " ++ (toString rn).data

/-- The match-creation loop: round idx gets round number startRound + idx and
date startDate + idx days; empty rounds are skipped (they contribute nothing). -/
def buildRounds (groupName : List Char) (startDate : Int) (startRound : Int) :
    List (List (Nat × Nat)) → Nat → List (Int × FMatch)
  | [], _ => []
  | rp :: rest, idx =>
    rp.map (fun pr =>
      (startRound + idx,
       FMatch.mk pr.1 pr.2 none none MStatus.scheduled
         (roundPitch groupName (startRound + idx)) (startDate + idx)))
      ++ buildRounds groupName startDate startRound rest (idx + 1)

/-- The last segment of Python s.split(sep) for a non-empty sep: greedy
left-to-right scan, the suffix after the last separator occurrence consumed. -/
def lastSegment (sep : List Char) (s : List Char) : List Char :=
  match s with
  | [] => []
  | c :: t =>
    if sep ≠ [] ∧ sep.isPrefixOf (c :: t) then lastSegment sep ((c :: t).drop sep.length)
    else if containsSub t sep then lastSegment sep t
    else c :: t
termination_by s.length
decreasing_by
  · rename_i h
    simp only [List.length_drop, List.length_cons]
    have hlen : 1 ≤ sep.length := by
      cases sep with
      | nil => exact absurd rfl h.1
      | cons a b => simp
    omega
  · simp

def isDigitChar (c : Char) : Bool := 48 ≤ c.toNat && c.toNat ≤ 57

def digitsVal (ds : List Char) : Nat :=
  ds.foldl (fun acc c => acc * 10 + (c.toNat - 48)) 0

/-- Python int(s) on the strings that occur here: optional surrounding
whitespace, optional sign, one or more decimal digits. -/
def parseIntPy (s : List Char) : Option Int :=
  let t := stripStr s
  match t with
  | '-' :: ds => if ds ≠ [] ∧ ds.all isDigitChar then some (-(digitsVal ds : Int)) else none
  | '+' :: ds => if ds ≠ [] ∧ ds.all isDigitChar then some (digitsVal ds : Int) else none
  | ds => if ds ≠ [] ∧ ds.all isDigitChar then some (digitsVal ds : Int) else none

/-- Round number extracted from a pitch label, with the start_round fallback
used when the pitch is falsy or int() raises. -/
def pitchRound (startRound : Int) (pitch : List Char) : Int :=
  if pitch = [] then startRound
  else
    match parseIntPy (lastSegment (strL "Round ") pitch) with
    | some k => k
    | none => startRound

/-- defaultdict(list) grouping by round number followed by sorted(items()):
keys in increasing order, insertion order within a key. -/
def reorganizeByRound (startRound : Int) (ms : List FMatch) : List (Int × FMatch) :=
  let keyed := ms.map (fun m => (pitchRound startRound m.pitch, m))
  let keys := (List.insertionSort (fun a b : Int => a ≤ b) (keyed.map (fun km => km.1))).dedup
  keys.flatMap (fun k => keyed.filter (fun km => km.1 = k))

/-- Result of generate_round_robin_for_group: the returned
(round_number, match) list, the number of newly created Match objects
(created_count), and whether the fallback placement branch ran. -/
structure RRResult where
  result : List (Int × FMatch)
  createdCount : Nat
  usedFallback : Bool
deriving DecidableEq

/-- Shallow embedding of generate_round_robin_for_group
(tournament_formats.py lines 61-203). allMatches stands for the
tournament's Match rows; the function itself applies the
pitch__startswith=group_name filter. -/
def generate_round_robin_for_group (groupTeams : List Nat) (allMatches : List FMatch)
    (groupName : List Char) (startDate : Int) (startRound : Int) : RRResult :=
  let numTeams := groupTeams.length
  if numTeams < 2 then ⟨[], 0, false⟩
  else
    let existingMatches := allMatches.filter (fun m => startsWith groupName m.pitch)
    let existingPairs := existingPairsOf existingMatches
    let allPairs := (combinations2 groupTeams).filter
      (fun pr => sortPair pr.1 pr.2 ∉ existingPairs)
    let expectedMatches := numTeams * (numTeams - 1) / 2
    if existingPairs.length = expectedMatches then
      ⟨reorganizeByRound startRound existingMatches, 0, false⟩
    else
      let numRounds := max 1 (numTeams - 1)
      let st := scheduleAll allPairs numRounds
      let res := buildRounds groupName startDate startRound st.rounds 0
      ⟨res, res.length, st.fb⟩

/-! #### Lemmas about the round scheduler -/

/-- Total number of pairs satisfying p across all rounds. -/
def roundsCountP (p : Nat × Nat → Bool) (rs : List (List (Nat × Nat))) : Nat :=
  (rs.map (List.countP p)).sum

/-- Every round holds at most one match of any team, and only teams recorded
in the round's team set. -/
def TeamInv (rs : List (List (Nat × Nat))) (ss : List (List Nat)) : Prop :=
  List.Forall₂ (fun round s => ∀ t : Nat,
    round.countP (fun pr => decide (pr.1 = t ∨ pr.2 = t)) ≤ if t ∈ s then 1 else 0) rs ss

/-! ### simulation_helpers: knockout round progression -/

/-- A Match row as handled by simulation_helpers.py: teams may be null
(placeholder slots), scores and penalties optional. -/
structure KMatch where
  home : Option Nat
  away : Option Nat
  homeScore : Option Nat
  awayScore : Option Nat
  homePens : Option Nat
  awayPens : Option Nat
  status : MStatus
  pitch : List Char
  kickoff : Int
deriving DecidableEq

/-- get_round_name (simulation_helpers.py lines 504-516). -/
def get_round_name (numTeams : Nat) : List Char :=
  if numTeams ≥ 16 then strL "Round of 16"
  else if numTeams ≥ 8 then strL "Quarter-Finals"
  else if numTeams ≥ 4 then strL "Semi-Finals"
  else strL "Final"

/-- The queryset exclude(pitch__icontains='Group'). -/
def nonGroupMatches (allM : List KMatch) : List KMatch :=
  allM.filter (fun m => !(icontains m.pitch (strL "Group")))

/-- The completed-round queryset: iexact filter when non-empty, else the
icontains filter (simulation_helpers.py lines 563-572), on the stripped
round name. -/
def selectRoundMatches (allM : List KMatch) (roundName : List Char) : List KMatch :=
  let ng := nonGroupMatches allM
  let byExact := ng.filter (fun m => iexact m.pitch roundName)
  let byContains := ng.filter (fun m => icontains m.pitch roundName)
  if byExact ≠ [] then byExact else byContains

/-- Winner of a single finished match (simulation_helpers.py lines 607-641):
higher score wins; on level scores higher penalties win; otherwise, or when a
score is missing or the winning side has no team, no winner. -/
def matchWinner (m : KMatch) : Option Nat :=
  match m.homeScore, m.awayScore with
  | some hs, some aws =>
    if m.status = MStatus.finished then
      if hs > aws then m.home
      else if aws > hs then m.away
      else
        match m.homePens, m.awayPens with
        | some hp, some ap =>
          if hp > ap then m.home
          else if ap > hp then m.away
          else none
        | _, _ => none
    else none
  | _, _ => none

/-- The winners list extracted from the completed round's matches. -/
def extractWinners (ms : List KMatch) : List Nat := ms.filterMap matchWinner

/-- The next-round existence check (simulation_helpers.py lines 692-768):
abort on an exact (case-insensitive) pitch match; otherwise, on a substring
match, abort for non-Final rounds, and for the Final round only when some
matching pitch strips exactly to "final". -/
def nextRoundExistsCheck (allM : List KMatch) (nextName : List Char) : Bool :=
  let ng := nonGroupMatches allM
  let existingExact := ng.filter (fun m => iexact m.pitch nextName)
  let existingContains := ng.filter (fun m => icontains m.pitch nextName)
  if existingExact.length > 0 then true
  else if existingContains.length > 0 then
    if lowerStr nextName = strL "final" then
      existingContains.any (fun m =>
        !m.pitch.isEmpty && decide (lowerStr (stripStr m.pitch) = strL "final"))
    else true
  else false

/-- order_by('-kickoff_at').first(): the greatest kickoff value. -/
def maxKickoff : List KMatch → Option Int
  | [] => none
  | m :: ms => some (ms.foldl (fun acc x => max acc x.kickoff) m.kickoff)

/-- The creation loop (simulation_helpers.py lines 788-822): winners[2i] hosts
winners[2i+1] for i < winners/2, on the next round's date and pitch. -/
def createNextMatches (winners : List Nat) (nextName : List Char) (d : Int) : List KMatch :=
  (List.range (winners.length / 2)).filterMap (fun i =>
    match winners[2 * i]?, winners[2 * i + 1]? with
    | some h, some a =>
      some (KMatch.mk (some h) (some a) none none none none MStatus.scheduled nextName d)
    | _, _ => none)

/-- Shallow embedding of generate_next_knockout_round
(simulation_helpers.py lines 519-822). Returns the newly created matches, or
none whenever the function returns False without creating anything. -/
def generate_next_knockout_round (allM : List KMatch) (completedRoundName : List Char) :
    Option (List KMatch) :=
  if stripStr completedRoundName = [] then none
  else
    let sel := selectRoundMatches allM (stripStr completedRoundName)
    if sel = [] then none
    else if sel.any (fun m => m.status = MStatus.scheduled ∨ m.status = MStatus.live) then
      none
    else
      let winners := extractWinners sel
      if winners.length < 2 then none
      else
        let nextName := get_round_name winners.length
        if nextRoundExistsCheck allM nextName then none
        else
          match maxKickoff sel with
          | none => none
          | some d => some (createNextMatches winners nextName (d + 1))

/-! ### Tournament completion (simulate_match tail and set_score tail) -/

/-- Final-match completion rule of simulate_match (simulation_helpers.py
lines 1114-1126): when the finished match's pitch contains "final" and its
lowering strips to exactly "final", mark the tournament completed unless it
already is. The Bool records whether a save was issued. -/
def markCompletedIfFinal (m : KMatch) (tstatus : TStatus) : TStatus × Bool :=
  let matchPitch := m.pitch
  let isFinalMatch := containsSub (lowerStr matchPitch) (strL "final") &&
    decide (stripStr (lowerStr matchPitch) = strL "final")
  if isFinalMatch = true ∧ m.status = MStatus.finished then
    if tstatus ≠ TStatus.completed then (TStatus.completed, true) else (tstatus, false)
  else (tstatus, false)

/-- All-matches-finished completion rule of set_score (views.py lines
1713-1728): when the match is finished and every match of the tournament is
finished, mark the tournament completed unless it already is. -/
def markCompletedIfAllFinished (allM : List KMatch) (m : KMatch) (tstatus : TStatus) :
    TStatus × Bool :=
  if m.status = MStatus.finished then
    if allM.length > 0 ∧
        (allM.filter (fun x => decide (x.status = MStatus.finished))).length =
          allM.length then
      if tstatus ≠ TStatus.completed then (TStatus.completed, true) else (tstatus, false)
    else (tstatus, false)
  else (tstatus, false)

/-! ### tournament_formats.generate_knockout_fixtures -/

/-- is_power_of_2 (tournament_formats.py lines 300-302). -/
def is_power_of_2 (n : Nat) : Bool := decide (n > 0) && decide ((n &&& (n - 1)) = 0)

/-- Shallow embedding of generate_knockout_fixtures (tournament_formats.py
lines 304-364). The raised ValueError branches are modelled by
Except.error. -/
def generate_knockout_fixtures (teams : List Nat) (startDate : Int) :
    Except (List Char) (List FMatch) :=
  let numTeams := teams.length
  if numTeams < 2 then Except.ok []
  else if ¬ (is_power_of_2 numTeams = true) then
    Except.error (strL "Knockout tournament must have a power-of-2 number of teams.")
  else
    let ms := (List.range (numTeams / 2)).map (fun i =>
      FMatch.mk (teams.getD (i * 2) 0) (teams.getD (i * 2 + 1) 0) none none
        MStatus.scheduled (strL "Round 1") startDate)
    if ms.length > numTeams / 2 then
      Except.error (strL "Knockout fixture generation error")
    else Except.ok ms

/-! ### tournament_formats.generate_league_fixtures -/

/-- The rotation rotating = [rotating[0]] + [rotating[-1]] + rotating[1:-1]
of the even branch (tournament_formats.py line 256). -/
def rotateEvenStep (rot : List Nat) : List Nat :=
  match rot with
  | [] => []
  | x :: rest =>
    match rest.getLast? with
    | none => [x, x]
    | some lastE => x :: lastE :: rest.dropLast

/-- One even-branch round: the fixed team meets rotating[0], then
rotating[i] meets rotating[len - i] for i in range(1, len // 2 + 1). -/
def evenRoundPairs (fixedT : Nat) (rot : List Nat) : List (Nat × Nat) :=
  (fixedT, rot.headD 0) :: (List.range' 1 (rot.length / 2)).map
    (fun i => (rot.getD i 0, rot.getD (rot.length - i) 0))

def evenRounds (fixedT : Nat) : Nat → List Nat → List (List (Nat × Nat))
  | 0, _ => []
  | k + 1, rot => evenRoundPairs fixedT rot :: evenRounds fixedT k (rotateEvenStep rot)

/-- One odd-branch round: as the even branch but a pair is kept only when
i < len - i. -/
def oddRoundPairs (fixedT : Nat) (rot : List Nat) : List (Nat × Nat) :=
  (fixedT, rot.headD 0) :: ((List.range' 1 (rot.length / 2)).filter
    (fun i => decide (i < rot.length - i))).map
    (fun i => (rot.getD i 0, rot.getD (rot.length - i) 0))

/-- The odd-branch rotation rotating[1:] + [rotating[0]]. -/
def oddRotate (rot : List Nat) : List Nat := rot.drop 1 ++ rot.take 1

def oddRounds (fixedT : Nat) : Nat → List Nat → List (List (Nat × Nat))
  | 0, _ => []
  | k + 1, rot => oddRoundPairs fixedT rot :: oddRounds fixedT k (oddRotate rot)

/-- The match-creation loop of generate_league_fixtures: one day per round,
no pitch label. -/
def buildLeagueRounds (startDate : Int) : List (List (Nat × Nat)) → Nat → List FMatch
  | [], _ => []
  | rps :: rest, idx =>
    rps.map (fun pr =>
      FMatch.mk pr.1 pr.2 none none MStatus.scheduled [] (startDate + idx))
      ++ buildLeagueRounds startDate rest (idx + 1)

/-- Shallow embedding of generate_league_fixtures (tournament_formats.py
lines 206-297). -/
def generate_league_fixtures (teams : List Nat) (startDate : Int) : List FMatch :=
  let n := teams.length
  if n < 2 then []
  else
    let rounds :=
      if n % 2 = 0 then evenRounds (teams.headD 0) (n - 1) teams.tail
      else oddRounds (teams.headD 0) (n - 1) teams.tail
    buildLeagueRounds startDate rounds 0

/-! ### tournament_formats.calculate_group_standings -/

/-- One standings row (the dict literal initialized per team). -/
structure Row where
  team : Nat
  played : Nat
  wins : Nat
  draws : Nat
  losses : Nat
  goalsFor : Nat
  goalsAgainst : Nat
  goalDiff : Int
  points : Nat
deriving DecidableEq

def initRow (t : Nat) : Row := ⟨t, 0, 0, 0, 0, 0, 0, 0, 0⟩

/-- standings[tid] mutation: the dict keyed by team id is a list of rows and
an update rewrites the row(s) carrying that key. -/
def bumpRow (tid : Nat) (f : Row → Row) (rows : List Row) : List Row :=
  rows.map (fun r => if r.team = tid then f r else r)

/-- Body of the played loop (lines 632-640): both sides of every group match
get played incremented. -/
def addPlayed (rows : List Row) (m : FMatch) : List Row :=
  bumpRow m.away (fun r => { r with played := r.played + 1 })
    (bumpRow m.home (fun r => { r with played := r.played + 1 }) rows)

/-- Body of the finished-match stats loop (lines 643-677). -/
def addStats (rows : List Row) (m : FMatch) : List Row :=
  let hs := m.homeScore.getD 0
  let aws := m.awayScore.getD 0
  let rows1 := bumpRow m.home (fun r =>
    { r with goalsFor := r.goalsFor + hs, goalsAgainst := r.goalsAgainst + aws }) rows
  let rows2 := bumpRow m.away (fun r =>
    { r with goalsFor := r.goalsFor + aws, goalsAgainst := r.goalsAgainst + hs }) rows1
  if hs > aws then
    bumpRow m.away (fun r => { r with losses := r.losses + 1 })
      (bumpRow m.home (fun r =>
        { r with wins := r.wins + 1, points := r.points + 3 }) rows2)
  else if aws > hs then
    bumpRow m.home (fun r => { r with losses := r.losses + 1 })
      (bumpRow m.away (fun r =>
        { r with wins := r.wins + 1, points := r.points + 3 }) rows2)
  else
    bumpRow m.away (fun r => { r with draws := r.draws + 1, points := r.points + 1 })
      (bumpRow m.home (fun r =>
        { r with draws := r.draws + 1, points := r.points + 1 }) rows2)

/-- The goal-difference loop (lines 680-683). -/
def setGoalDiff (rows : List Row) : List Row :=
  rows.map (fun r =>
    { r with goalDiff := (r.goalsFor : Int) - (r.goalsAgainst : Int) })

def standingKey (r : Row) : Nat × Int × Nat := (r.points, r.goalDiff, r.goalsFor)

/-- Python tuple < on a (points, goal_difference, goals_for) key. -/
def keyLt : Nat × Int × Nat → Nat × Int × Nat → Bool := fun a b =>
  decide (a.1 < b.1) || (decide (a.1 = b.1) &&
    (decide (a.2.1 < b.2.1) || (decide (a.2.1 = b.2.1) && decide (a.2.2 < b.2.2))))

/-- sorted(key=..., reverse=True) orders by descending key and, being
stable, keeps input order inside equal keys: row a may precede row b exactly
when a's key is not lexicographically below b's. -/
def standingsGE (a b : Row) : Prop := keyLt (standingKey a) (standingKey b) = false

instance : DecidableRel standingsGE := fun a b => by
  unfold standingsGE
  infer_instance

/-- The group's matches: filter on a non-empty pitch starting with the
group name (line 614). -/
def groupMatches (ms : List FMatch) (groupName : List Char) : List FMatch :=
  ms.filter (fun m => decide (m.pitch ≠ [] ∧ startsWith groupName m.pitch = true))

/-- The finished subset of the group's matches (line 643). -/
def finishedGroupMatches (ms : List FMatch) (groupName : List Char) : List FMatch :=
  (groupMatches ms groupName).filter (fun m => decide (m.status = MStatus.finished))

/-- The standings rows before sorting, in input-team order. -/
def standingsUnsorted (teams : List Nat) (ms : List FMatch)
    (groupName : List Char) : List Row :=
  setGoalDiff (((finishedGroupMatches ms groupName).foldl addStats
    ((groupMatches ms groupName).foldl addPlayed (teams.map initRow))))

/-- Shallow embedding of calculate_group_standings (tournament_formats.py
lines 600-692): the sort is the stable descending sort of Python's
sorted(..., reverse=True). -/
def calculate_group_standings (teams : List Nat) (ms : List FMatch)
    (groupName : List Char) : List Row :=
  List.insertionSort standingsGE (standingsUnsorted teams ms groupName)

/-- The dict lookup standings[t]. -/
def rowFor (t : Nat) (rows : List Row) : Option Row :=
  rows.find? (fun r => decide (r.team = t))

/-- Contribution of one group match to team t's played count. -/
def playedC (t : Nat) (m : FMatch) : Nat :=
  (if t = m.home then 1 else 0) + (if t = m.away then 1 else 0)

/-- Contribution of one finished match to team t's win count. -/
def winC (t : Nat) (m : FMatch) : Nat :=
  (if m.homeScore.getD 0 > m.awayScore.getD 0 ∧ t = m.home then 1 else 0) +
  (if m.awayScore.getD 0 > m.homeScore.getD 0 ∧ t = m.away then 1 else 0)

/-- Contribution of one finished match to team t's loss count. -/
def lossC (t : Nat) (m : FMatch) : Nat :=
  (if m.homeScore.getD 0 > m.awayScore.getD 0 ∧ t = m.away then 1 else 0) +
  (if m.awayScore.getD 0 > m.homeScore.getD 0 ∧ t = m.home then 1 else 0)

/-- Contribution of one finished match to team t's draw count. -/
def drawC (t : Nat) (m : FMatch) : Nat :=
  (if m.homeScore.getD 0 = m.awayScore.getD 0 ∧ t = m.home then 1 else 0) +
  (if m.homeScore.getD 0 = m.awayScore.getD 0 ∧ t = m.away then 1 else 0)

/-- Contribution of one finished match to team t's goals for. -/
def gfC (t : Nat) (m : FMatch) : Nat :=
  (if t = m.home then m.homeScore.getD 0 else 0) +
  (if t = m.away then m.awayScore.getD 0 else 0)

/-- Contribution of one finished match to team t's goals against. -/
def gaC (t : Nat) (m : FMatch) : Nat :=
  (if t = m.home then m.awayScore.getD 0 else 0) +
  (if t = m.away then m.homeScore.getD 0 else 0)

/-- Contribution of one finished match to team t's points. -/
def ptC (t : Nat) (m : FMatch) : Nat :=
  3 * winC t m + drawC t m

/-- Per-team effect of one played-loop iteration. -/
def playedEff (t : Nat) (m : FMatch) (r : Row) : Row :=
  { r with played := r.played + playedC t m }

/-- Per-team effect of one stats-loop iteration. -/
def statsEff (t : Nat) (m : FMatch) (r : Row) : Row :=
  { r with
    wins := r.wins + winC t m,
    draws := r.draws + drawC t m,
    losses := r.losses + lossC t m,
    goalsFor := r.goalsFor + gfC t m,
    goalsAgainst := r.goalsAgainst + gaC t m,
    points := r.points + ptC t m }

/-- Concrete input for the claim C5 witness: three teams in Group A with one
finished win, one finished draw, one still-scheduled match, and one finished
match belonging to another group. -/
def wC5ms : List FMatch :=
  [{ home := 1, away := 2, homeScore := some 2, awayScore := some 0,
     status := MStatus.finished, pitch := strL "Group A - Round 1", kickoff := 0 },
   { home := 2, away := 3, homeScore := some 1, awayScore := some 1,
     status := MStatus.finished, pitch := strL "Group A - Round 2", kickoff := 0 },
   { home := 1, away := 3, homeScore := none, awayScore := none,
     status := MStatus.scheduled, pitch := strL "Group A - Round 3", kickoff := 0 },
   { home := 1, away := 2, homeScore := some 5, awayScore := some 0,
     status := MStatus.finished, pitch := strL "Group B - Round 1", kickoff := 0 }]

/-! ### String machinery: Python str operations on List Char -/

/-! #### Lemmas about the string machinery -/

theorem isPrefixOf_iff_exists {pre s : List Char} :
    pre.isPrefixOf s = true ↔ ∃ post, pre ++ post = s := by
  rw [List.isPrefixOf_iff_prefix]
  rfl

theorem containsSub_iff {hay needle : List Char} :
    containsSub hay needle = true ↔ ∃ pre post, pre ++ needle ++ post = hay := by
  induction hay with
  | nil =>
    simp only [containsSub, List.isEmpty_iff]
    constructor
    · rintro rfl; exact ⟨[], [], rfl⟩
    · rintro ⟨pre, post, h⟩
      rcases List.append_eq_nil.mp h with ⟨h1, h2⟩
      exact (List.append_eq_nil.mp h1).2
  | cons c t ih =>
    simp only [containsSub, Bool.or_eq_true, ih, isPrefixOf_iff_exists]
    constructor
    · rintro (⟨post, h⟩ | ⟨pre, post, h⟩)
      · exact ⟨[], post, by simpa using h⟩
      · exact ⟨c :: pre, post, by simp [h]⟩
    · rintro ⟨pre, post, h⟩
      cases pre with
      | nil => exact Or.inl ⟨post, by simpa using h⟩
      | cons p ps =>
        right
        simp only [List.cons_append, List.cons.injEq] at h
        exact ⟨ps, post, h.2⟩

theorem containsSub_of_append {a b c : List Char} :
    containsSub (a ++ b ++ c) b = true :=
  containsSub_iff.mpr ⟨a, c, rfl⟩

/-- s.strip() is a contiguous slice of s. -/
theorem stripStr_infix (s : List Char) :
    ∃ pre post, pre ++ stripStr s ++ post = s := by
  refine ⟨s.takeWhile isSpaceChar,
    ((s.dropWhile isSpaceChar).reverse.takeWhile isSpaceChar).reverse, ?_⟩
  have h1 := List.takeWhile_append_dropWhile isSpaceChar s
  have h2 := List.takeWhile_append_dropWhile isSpaceChar (s.dropWhile isSpaceChar).reverse
  have h3 : stripStr s ++ ((s.dropWhile isSpaceChar).reverse.takeWhile isSpaceChar).reverse
      = s.dropWhile isSpaceChar := by
    unfold stripStr
    rw [← List.reverse_append, h2, List.reverse_reverse]
  rw [List.append_assoc, h3, h1]

theorem toNat_ofNat_of_valid {n : Nat} (h : n < 0xD800) : (Char.ofNat n).toNat = n := by
  have hv : n.isValidChar := Or.inl h
  rw [Char.ofNat, dif_pos hv]
  rfl

/-- Lowering a character neither creates whitespace nor destroys it. -/
theorem isSpaceChar_toLower (c : Char) : isSpaceChar c.toLower = isSpaceChar c := by
  unfold Char.toLower
  dsimp only
  split
  · rename_i h
    have h65 : 65 ≤ c.toNat := h.1
    have h90 : c.toNat ≤ 90 := h.2
    have hval : (Char.ofNat (c.toNat + 32)).toNat = c.toNat + 32 :=
      toNat_ofNat_of_valid (by omega)
    have hr : isSpaceChar c = false := by
      simp only [isSpaceChar, Bool.or_eq_false_iff, decide_eq_false_iff_not]
      omega
    have hl : isSpaceChar (Char.ofNat (c.toNat + 32)) = false := by
      simp only [isSpaceChar, hval, Bool.or_eq_false_iff, decide_eq_false_iff_not]
      omega
    rw [hl, hr]
  · rfl

/-- Python s.lower().strip() and s.strip().lower() agree. -/
theorem stripStr_lowerStr_comm (s : List Char) :
    stripStr (lowerStr s) = lowerStr (stripStr s) := by
  unfold stripStr lowerStr
  have hdw : ∀ l : List Char,
      (l.map Char.toLower).dropWhile isSpaceChar =
      (l.dropWhile isSpaceChar).map Char.toLower := by
    intro l
    have hf : isSpaceChar ∘ Char.toLower = isSpaceChar := funext isSpaceChar_toLower
    rw [List.dropWhile_map, hf]
  rw [hdw, ← List.map_reverse, hdw, List.map_reverse]

/-! ### tournament_formats.generate_round_robin_for_group -/

/-! #### Lemmas about sortPair and combinations2 -/

theorem sortPair_eq_iff {a b c d : Nat} :
    sortPair a b = sortPair c d ↔ (a = c ∧ b = d) ∨ (a = d ∧ b = c) := by
  unfold sortPair
  split <;> split <;> simp only [Prod.mk.injEq] <;> omega

theorem sortPair_left_eq {a b c : Nat} (h : sortPair a b = sortPair a c) : b = c := by
  rcases sortPair_eq_iff.mp h with ⟨h1, h2⟩ | ⟨h1, h2⟩ <;> omega

theorem sortPair_comm (a b : Nat) : sortPair a b = sortPair b a := by
  unfold sortPair
  split <;> split <;> simp only [Prod.mk.injEq] <;> omega

theorem countP_eq_one_of_nodup_mem {l : List Nat} {b : Nat} (hnd : l.Nodup) (hb : b ∈ l) :
    l.countP (fun y => decide (y = b)) = 1 := by
  induction l with
  | nil => simp at hb
  | cons x xs ih =>
    have hnd2 := List.nodup_cons.mp hnd
    rw [List.countP_cons]
    rcases List.mem_cons.mp hb with heq | hxs
    · subst heq
      have h0 : xs.countP (fun y => decide (y = b)) = 0 := by
        rw [List.countP_eq_zero]
        intro y hy
        simp only [decide_eq_true_eq]
        intro hyb
        exact hnd2.1 (hyb ▸ hy)
      simp [h0]
    · have hxb : ¬(x = b) := fun heq2 => hnd2.1 (heq2 ▸ hxs)
      simp [ih hnd2.2 hxs, hxb]

theorem mem_combinations2 {pr : Nat × Nat} {l : List Nat} (h : pr ∈ combinations2 l) :
    pr.1 ∈ l ∧ pr.2 ∈ l := by
  induction l with
  | nil => simp [combinations2] at h
  | cons x xs ih =>
    simp only [combinations2, List.mem_append, List.mem_map] at h
    rcases h with ⟨y, hy, rfl⟩ | h
    · exact ⟨List.mem_cons_self _ _, List.mem_cons_of_mem _ hy⟩
    · exact ⟨List.mem_cons_of_mem _ (ih h).1, List.mem_cons_of_mem _ (ih h).2⟩

theorem combinations2_fst_ne_snd {pr : Nat × Nat} {l : List Nat}
    (hnd : l.Nodup) (h : pr ∈ combinations2 l) : pr.1 ≠ pr.2 := by
  induction l with
  | nil => simp [combinations2] at h
  | cons x xs ih =>
    simp only [combinations2, List.mem_append, List.mem_map] at h
    rcases h with ⟨y, hy, rfl⟩ | h
    · intro hxy
      dsimp only at hxy
      exact (List.nodup_cons.mp hnd).1 (hxy ▸ hy)
    · exact ih (List.nodup_cons.mp hnd).2 h

theorem length_combinations2_twice (l : List Nat) :
    2 * (combinations2 l).length = l.length * (l.length - 1) := by
  induction l with
  | nil => simp [combinations2]
  | cons x xs ih =>
    simp only [combinations2, List.length_append, List.length_map, List.length_cons]
    cases hn : xs.length with
    | zero =>
      have : combinations2 xs = [] := by
        cases xs with
        | nil => rfl
        | cons a b => simp at hn
      simp [this, hn]
    | succ m =>
      rw [Nat.mul_add, ih, hn]
      have : (m + 1 + 1) * (m + 1 + 1 - 1) = 2 * (m + 1) + (m + 1) * (m + 1 - 1) := by
        simp only [Nat.add_sub_cancel]
        ring
      omega

theorem length_combinations2 (l : List Nat) :
    (combinations2 l).length = l.length * (l.length - 1) / 2 := by
  have h := length_combinations2_twice l
  omega

/-- In a duplicate-free team list, a given unordered pair of distinct members
appears exactly once among the combinations. -/
theorem countP_combinations2_pair {l : List Nat} {a b : Nat}
    (hnd : l.Nodup) (ha : a ∈ l) (hb : b ∈ l) (hab : a ≠ b) :
    (combinations2 l).countP (fun pr => decide (sortPair pr.1 pr.2 = sortPair a b)) = 1 := by
  induction l with
  | nil => simp at ha
  | cons x xs ih =>
    have hnd2 := List.nodup_cons.mp hnd
    have hmap : ∀ c : Nat, (xs.map (fun y => (x, y))).countP
        (fun pr => decide (sortPair pr.1 pr.2 = sortPair a b)) =
        xs.countP (fun y => decide (sortPair x y = sortPair a b)) := by
      intro c
      rw [List.countP_map]
      rfl
    have hzero_tail : x = a ∨ x = b → (combinations2 xs).countP
        (fun pr => decide (sortPair pr.1 pr.2 = sortPair a b)) = 0 := by
      intro hx
      rw [List.countP_eq_zero]
      intro pr hpr
      simp only [decide_eq_true_eq]
      intro heq
      have hm := mem_combinations2 hpr
      rcases sortPair_eq_iff.mp heq with ⟨h1, h2⟩ | ⟨h1, h2⟩ <;>
          rcases hx with hx | hx <;> apply hnd2.1
      · exact hx.symm ▸ h1 ▸ hm.1
      · exact hx.symm ▸ h2 ▸ hm.2
      · exact hx.symm ▸ h2 ▸ hm.2
      · exact hx.symm ▸ h1 ▸ hm.1
    simp only [combinations2, List.countP_append, hmap 0]
    by_cases hxa : x = a
    · subst hxa
      have hbxs : b ∈ xs := by
        rcases List.mem_cons.mp hb with rfl | h
        · exact absurd rfl hab
        · exact h
      have h1 : xs.countP (fun y => decide (sortPair x y = sortPair x b)) = 1 := by
        have heqf : (fun y => decide (sortPair x y = sortPair x b)) =
            (fun y => decide (y = b)) := by
          funext y
          simp only [decide_eq_decide]
          exact ⟨fun h => sortPair_left_eq h, fun h => h ▸ rfl⟩
        rw [heqf]
        exact countP_eq_one_of_nodup_mem hnd2.2 hbxs
      rw [h1, hzero_tail (Or.inl rfl)]
    by_cases hxb : x = b
    · subst hxb
      have haxs : a ∈ xs := by
        rcases List.mem_cons.mp ha with rfl | h
        · exact absurd rfl hab
        · exact h
      have h1 : xs.countP (fun y => decide (sortPair x y = sortPair a x)) = 1 := by
        have heqf : (fun y => decide (sortPair x y = sortPair a x)) =
            (fun y => decide (y = a)) := by
          funext y
          simp only [decide_eq_decide]
          constructor
          · intro h
            have h2 : sortPair x y = sortPair x a := by rw [h]; exact sortPair_comm a x
            exact sortPair_left_eq h2
          · intro h
            rw [h]
            exact sortPair_comm x a
        rw [heqf]
        exact countP_eq_one_of_nodup_mem hnd2.2 haxs
      rw [h1, hzero_tail (Or.inr rfl)]
    · have haxs : a ∈ xs := by
        rcases List.mem_cons.mp ha with rfl | h
        · exact absurd rfl hxa
        · exact h
      have hbxs : b ∈ xs := by
        rcases List.mem_cons.mp hb with rfl | h
        · exact absurd rfl hxb
        · exact h
      have h0 : xs.countP (fun y => decide (sortPair x y = sortPair a b)) = 0 := by
        rw [List.countP_eq_zero]
        intro y hy
        simp only [decide_eq_true_eq]
        intro heq
        rcases sortPair_eq_iff.mp heq with ⟨h1, h2⟩ | ⟨h1, h2⟩
        · exact hxa h1
        · exact hxb h1
      rw [h0, ih hnd2.2 haxs hbxs]

/-- In a duplicate-free team list, a given member appears in exactly
length - 1 of the combinations. -/
theorem countP_combinations2_team {l : List Nat} {t : Nat}
    (hnd : l.Nodup) (ht : t ∈ l) :
    (combinations2 l).countP (fun pr => decide (pr.1 = t ∨ pr.2 = t)) = l.length - 1 := by
  induction l with
  | nil => simp at ht
  | cons x xs ih =>
    have hnd2 := List.nodup_cons.mp hnd
    simp only [combinations2, List.countP_append, List.countP_map, List.length_cons]
    by_cases hxt : x = t
    · have hhead : xs.countP ((fun pr : Nat × Nat => decide (pr.1 = t ∨ pr.2 = t)) ∘
          (fun y => (x, y))) = xs.length := by
        rw [List.countP_eq_length]
        intro y _
        simp [Function.comp, hxt]
      have htail : (combinations2 xs).countP
          (fun pr => decide (pr.1 = t ∨ pr.2 = t)) = 0 := by
        rw [List.countP_eq_zero]
        intro pr hpr
        have hm := mem_combinations2 hpr
        simp only [decide_eq_true_eq]
        rintro (h1 | h1)
        · exact hnd2.1 (hxt ▸ h1 ▸ hm.1)
        · exact hnd2.1 (hxt ▸ h1 ▸ hm.2)
      rw [hhead, htail]
      omega
    · have htxs : t ∈ xs := by
        rcases List.mem_cons.mp ht with heq | h
        · exact absurd heq.symm hxt
        · exact h
      have hhead : xs.countP ((fun pr : Nat × Nat => decide (pr.1 = t ∨ pr.2 = t)) ∘
          (fun y => (x, y))) = 1 := by
        have hcong : xs.countP ((fun pr : Nat × Nat => decide (pr.1 = t ∨ pr.2 = t)) ∘
            (fun y => (x, y))) = xs.countP (fun y => decide (y = t)) := by
          apply List.countP_congr
          intro y _
          show decide (x = t ∨ y = t) = true ↔ decide (y = t) = true
          by_cases hy : y = t
          · simp [hy]
          · simp [hy, hxt]
        rw [hcong]
        exact countP_eq_one_of_nodup_mem hnd2.2 htxs
      rw [hhead, ih hnd2.2 htxs]
      have hpos : 0 < xs.length := List.length_pos_of_mem htxs
      omega

/-! #### Lemmas about the round scheduler -/

theorem roundsCountP_cons {p : Nat × Nat → Bool} {r : List (Nat × Nat)}
    {rs : List (List (Nat × Nat))} :
    roundsCountP p (r :: rs) = r.countP p + roundsCountP p rs := by
  simp [roundsCountP]

theorem placePairFirstFit_spec {p : Nat × Nat → Bool} {t1 t2 : Nat} :
    ∀ {rs : List (List (Nat × Nat))} {ss rs2 ss2},
      placePairFirstFit t1 t2 rs ss = some (rs2, ss2) →
      roundsCountP p rs2 = roundsCountP p rs + (if p (t1, t2) then 1 else 0) ∧
      rs2.length = rs.length ∧ ss2.length = ss.length := by
  intro rs
  induction rs with
  | nil => intro ss rs2 ss2 h; simp [placePairFirstFit] at h
  | cons r rst ih =>
    intro ss rs2 ss2 h
    cases ss with
    | nil => simp [placePairFirstFit] at h
    | cons s sst =>
      rw [placePairFirstFit] at h
      by_cases hc : t1 ∉ s ∧ t2 ∉ s
      · rw [if_pos hc] at h
        simp only [Option.some.injEq, Prod.mk.injEq] at h
        obtain ⟨h1, h2⟩ := h
        subst h1
        subst h2
        refine ⟨?_, by simp, by simp⟩
        simp only [roundsCountP_cons, List.countP_append, List.countP_cons, List.countP_nil]
        omega
      · rw [if_neg hc] at h
        cases hrec : placePairFirstFit t1 t2 rst sst with
        | none => rw [hrec] at h; exact absurd h (by simp)
        | some pr2 =>
          rw [hrec] at h
          obtain ⟨rs2t, ss2t⟩ := pr2
          simp only [Option.some.injEq, Prod.mk.injEq] at h
          obtain ⟨h1, h2⟩ := h
          subst h1
          subst h2
          obtain ⟨hcount, hlen1, hlen2⟩ := ih hrec
          refine ⟨?_, by simp [hlen1], by simp [hlen2]⟩
          simp only [roundsCountP_cons, hcount]
          omega

theorem appendAt_spec (p : Nat × Nat → Bool) {pr : Nat × Nat} :
    ∀ {rs : List (List (Nat × Nat))} {i : Nat}, i < rs.length →
      roundsCountP p (appendAt rs i pr) = roundsCountP p rs + (if p pr then 1 else 0) ∧
      (appendAt rs i pr).length = rs.length := by
  intro rs
  induction rs with
  | nil => intro i hi; simp at hi
  | cons r rst ih =>
    intro i hi
    cases i with
    | zero =>
      refine ⟨?_, by simp [appendAt]⟩
      simp only [appendAt, roundsCountP_cons, List.countP_append, List.countP_cons,
        List.countP_nil]
      omega
    | succ j =>
      have hj : j < rst.length := by simpa using hi
      obtain ⟨hcount, hlen⟩ := ih hj
      refine ⟨?_, by simp [appendAt, hlen]⟩
      simp only [appendAt, roundsCountP_cons, hcount]
      omega

theorem argminLenAux_lt {N : Nat} :
    ∀ (rs : List (List (Nat × Nat))) (i best bl : Nat), best < N → i + rs.length ≤ N →
      argminLenAux rs i best bl < N := by
  intro rs
  induction rs with
  | nil => intro i best bl hb _; simpa [argminLenAux] using hb
  | cons r rst ih =>
    intro i best bl hb hlen
    simp only [List.length_cons] at hlen
    rw [argminLenAux]
    split
    · exact ih (i + 1) i r.length (by omega) (by omega)
    · exact ih (i + 1) best bl hb (by omega)

theorem argminLen_lt {rs : List (List (Nat × Nat))} (h : rs ≠ []) :
    argminLen rs < rs.length := by
  cases rs with
  | nil => exact absurd rfl h
  | cons r rst =>
    rw [argminLen]
    exact argminLenAux_lt rst 1 0 r.length (by simp) (by simp; omega)

theorem schedStep_count (p : Nat × Nat → Bool) {st : SchedSt} (pr : Nat × Nat)
    (hne : st.rounds ≠ []) :
    roundsCountP p (schedStep st pr).rounds =
      roundsCountP p st.rounds + (if p pr then 1 else 0) ∧
    (schedStep st pr).rounds.length = st.rounds.length := by
  rw [schedStep]
  cases hpl : placePairFirstFit pr.1 pr.2 st.rounds st.roundTeams with
  | some res =>
    obtain ⟨rs2, ss2⟩ := res
    obtain ⟨hcount, hlen, _⟩ := placePairFirstFit_spec hpl
    exact ⟨hcount, hlen⟩
  | none =>
    obtain ⟨hcount, hlen⟩ := appendAt_spec p (argminLen_lt hne)
    exact ⟨hcount, hlen⟩

theorem foldl_schedStep_count (p : Nat × Nat → Bool) :
    ∀ (pairs : List (Nat × Nat)) (st : SchedSt), st.rounds ≠ [] →
      roundsCountP p (pairs.foldl schedStep st).rounds =
        roundsCountP p st.rounds + pairs.countP p ∧
      (pairs.foldl schedStep st).rounds.length = st.rounds.length := by
  intro pairs
  induction pairs with
  | nil => intro st hne; simp
  | cons q qs ih =>
    intro st hne
    obtain ⟨hc1, hl1⟩ := schedStep_count p q hne
    have hne2 : (schedStep st q).rounds ≠ [] := by
      intro hnil
      rw [hnil] at hl1
      exact hne (List.length_eq_zero.mp hl1.symm)
    obtain ⟨hc2, hl2⟩ := ih (schedStep st q) hne2
    rw [List.foldl_cons]
    refine ⟨?_, by rw [hl2, hl1]⟩
    rw [hc2, hc1, List.countP_cons]
    omega

theorem scheduleAll_count (p : Nat × Nat → Bool) (pairs : List (Nat × Nat))
    (numRounds : Nat) (h : 1 ≤ numRounds) :
    roundsCountP p (scheduleAll pairs numRounds).rounds = pairs.countP p ∧
    (scheduleAll pairs numRounds).rounds.length = numRounds := by
  have hne : (List.replicate numRounds ([] : List (Nat × Nat))) ≠ [] := by
    intro hnil
    have := congrArg List.length hnil
    simp at this
    omega
  obtain ⟨hc, hl⟩ := foldl_schedStep_count p pairs
    ⟨List.replicate numRounds [], List.replicate numRounds [], false⟩ hne
  constructor
  · rw [scheduleAll, hc]
    have : roundsCountP p (List.replicate numRounds []) = 0 := by
      simp [roundsCountP, List.map_replicate]
    simp [this]
  · rw [scheduleAll, hl]
    simp

/-! #### Lemmas about buildRounds -/

theorem buildRounds_pairs (g : List Char) (d r : Int) :
    ∀ (rs : List (List (Nat × Nat))) (idx : Nat),
      (buildRounds g d r rs idx).map (fun rm => (rm.2.home, rm.2.away)) = rs.flatten := by
  intro rs
  induction rs with
  | nil => intro idx; rfl
  | cons rp rest ih =>
    intro idx
    simp only [buildRounds, List.map_append, List.map_map, List.flatten_cons, ih]
    congr 1
    have hcomp : ((fun rm : Int × FMatch => (rm.2.home, rm.2.away)) ∘
        (fun pr : Nat × Nat => ((r + (idx : Int)),
          FMatch.mk pr.1 pr.2 none none MStatus.scheduled
            (roundPitch g (r + (idx : Int))) (d + (idx : Int))))) = id := by
      funext pr
      rfl
    rw [hcomp, List.map_id]

theorem buildRounds_countP (g : List Char) (d r : Int) (p : Nat × Nat → Bool)
    (rs : List (List (Nat × Nat))) (idx : Nat) :
    (buildRounds g d r rs idx).countP (fun rm => p (rm.2.home, rm.2.away)) =
      roundsCountP p rs := by
  have h := congrArg (List.countP p) (buildRounds_pairs g d r rs idx)
  rw [List.countP_map, List.countP_flatten] at h
  exact h

theorem buildRounds_length (g : List Char) (d r : Int)
    (rs : List (List (Nat × Nat))) (idx : Nat) :
    (buildRounds g d r rs idx).length = roundsCountP (fun _ => true) rs := by
  have h := buildRounds_countP g d r (fun _ => true) rs idx
  rw [List.countP_true] at h
  exact h

theorem buildRounds_shape {g : List Char} {d r : Int} :
    ∀ {rs : List (List (Nat × Nat))} {idx : Nat} {rm : Int × FMatch},
      rm ∈ buildRounds g d r rs idx →
      rm.2.pitch = roundPitch g rm.1 ∧ rm.2.status = MStatus.scheduled ∧ r + idx ≤ rm.1 := by
  intro rs
  induction rs with
  | nil => intro idx rm h; simp [buildRounds] at h
  | cons rp rest ih =>
    intro idx rm h
    rw [buildRounds, List.mem_append] at h
    rcases h with h | h
    · obtain ⟨pr, _, rfl⟩ := List.mem_map.mp h
      exact ⟨rfl, rfl, le_refl _⟩
    · obtain ⟨h1, h2, h3⟩ := ih h
      refine ⟨h1, h2, ?_⟩
      have : ((idx : Int) + 1) = ((idx + 1 : Nat) : Int) := by push_cast; ring
      omega

theorem buildRounds_round_countP {g : List Char} {d r : Int} (p : Nat × Nat → Bool) :
    ∀ (rs : List (List (Nat × Nat))) (idx : Nat) (K : Int),
      (∀ round ∈ rs, round.countP p ≤ 1) →
      (buildRounds g d r rs idx).countP
        (fun rm => decide (rm.1 = K) && p (rm.2.home, rm.2.away)) ≤ 1 := by
  intro rs
  induction rs with
  | nil => intro idx K _; simp [buildRounds]
  | cons rp rest ih =>
    intro idx K hinv
    rw [buildRounds, List.countP_append, List.countP_map]
    by_cases hK : (r + (idx : Int)) = K
    · have htail : (buildRounds g d r rest (idx + 1)).countP
          (fun rm => decide (rm.1 = K) && p (rm.2.home, rm.2.away)) = 0 := by
        rw [List.countP_eq_zero]
        intro rm hrm
        have hge := (buildRounds_shape hrm).2.2
        simp only [Bool.and_eq_true, decide_eq_true_eq]
        rintro ⟨h1, _⟩
        have : ((idx + 1 : Nat) : Int) = (idx : Int) + 1 := by push_cast; ring
        omega
      have hhead : rp.countP ((fun rm : Int × FMatch =>
          decide (rm.1 = K) && p (rm.2.home, rm.2.away)) ∘
          (fun pr : Nat × Nat => ((r + (idx : Int)),
            FMatch.mk pr.1 pr.2 none none MStatus.scheduled
              (roundPitch g (r + (idx : Int))) (d + (idx : Int))))) = rp.countP p := by
        apply List.countP_congr
        intro pr _
        simp only [Function.comp_apply, hK, decide_eq_true_eq]
        simp
      rw [htail, hhead]
      have := hinv rp (List.mem_cons_self _ _)
      omega
    · have hhead : rp.countP ((fun rm : Int × FMatch =>
          decide (rm.1 = K) && p (rm.2.home, rm.2.away)) ∘
          (fun pr : Nat × Nat => ((r + (idx : Int)),
            FMatch.mk pr.1 pr.2 none none MStatus.scheduled
              (roundPitch g (r + (idx : Int))) (d + (idx : Int))))) = 0 := by
        rw [List.countP_eq_zero]
        intro pr _
        simp only [Function.comp_apply, Bool.and_eq_true, decide_eq_true_eq]
        rintro ⟨h1, _⟩
        exact hK h1
      rw [hhead]
      have := ih (idx + 1) K (fun round hr => hinv round (List.mem_cons_of_mem _ hr))
      omega

/-! #### The no-fallback per-round team invariant -/

theorem mem_insertTeamSet {s : List Nat} {u v : Nat} :
    u ∈ insertTeamSet s v ↔ u ∈ s ∨ u = v := by
  unfold insertTeamSet
  split
  · rename_i hv
    constructor
    · exact Or.inl
    · rintro (h | rfl)
      · exact h
      · exact hv
  · simp [List.mem_append]

theorem placePairFirstFit_teamInv {t1 t2 : Nat} :
    ∀ {rs ss rs2 ss2}, TeamInv rs ss →
      placePairFirstFit t1 t2 rs ss = some (rs2, ss2) → TeamInv rs2 ss2 := by
  intro rs
  induction rs with
  | nil => intro ss rs2 ss2 _ h; simp [placePairFirstFit] at h
  | cons r rst ih =>
    intro ss rs2 ss2 hinv h
    cases ss with
    | nil => simp [placePairFirstFit] at h
    | cons s sst =>
      rcases hinv with _ | ⟨hrel, hrest⟩
      rw [placePairFirstFit] at h
      by_cases hc : t1 ∉ s ∧ t2 ∉ s
      · rw [if_pos hc] at h
        simp only [Option.some.injEq, Prod.mk.injEq] at h
        obtain ⟨h1, h2⟩ := h
        subst h1
        subst h2
        refine List.Forall₂.cons ?_ hrest
        intro t
        rw [List.countP_append, List.countP_cons, List.countP_nil]
        by_cases ht : t = t1 ∨ t = t2
        · have hts : t ∉ s := by
            rcases ht with rfl | rfl
            · exact hc.1
            · exact hc.2
          have h0 : r.countP (fun pr => decide (pr.1 = t ∨ pr.2 = t)) = 0 := by
            have := hrel t
            rw [if_neg hts] at this
            omega
          have hmem : t ∈ insertTeamSet (insertTeamSet s t1) t2 := by
            rw [mem_insertTeamSet, mem_insertTeamSet]
            rcases ht with rfl | rfl
            · exact Or.inl (Or.inr rfl)
            · exact Or.inr rfl
          rw [if_pos hmem, h0]
          split <;> omega
        · push_neg at ht
          have hpred : (decide ((t1, t2).1 = t ∨ (t1, t2).2 = t)) = false := by
            simp only [decide_eq_false_iff_not]
            push_neg
            exact ⟨fun h => ht.1 h.symm, fun h => ht.2 h.symm⟩
          rw [hpred]
          by_cases hts : t ∈ s
          · have hmem : t ∈ insertTeamSet (insertTeamSet s t1) t2 := by
              rw [mem_insertTeamSet, mem_insertTeamSet]
              exact Or.inl (Or.inl hts)
            rw [if_pos hmem]
            have := hrel t
            rw [if_pos hts] at this
            simp only [Bool.false_eq_true, if_false]
            omega
          · have hmem : t ∉ insertTeamSet (insertTeamSet s t1) t2 := by
              rw [mem_insertTeamSet, mem_insertTeamSet]
              push_neg
              exact ⟨⟨hts, fun h => ht.1 h⟩, fun h => ht.2 h⟩
            rw [if_neg hmem]
            have := hrel t
            rw [if_neg hts] at this
            simp only [Bool.false_eq_true, if_false]
            omega
      · rw [if_neg hc] at h
        cases hrec : placePairFirstFit t1 t2 rst sst with
        | none => rw [hrec] at h; exact absurd h (by simp)
        | some pr2 =>
          rw [hrec] at h
          obtain ⟨rs2t, ss2t⟩ := pr2
          simp only [Option.some.injEq, Prod.mk.injEq] at h
          obtain ⟨h1, h2⟩ := h
          subst h1
          subst h2
          exact List.Forall₂.cons hrel (ih hrest hrec)

theorem schedStep_fb_mono {st : SchedSt} {pr : Nat × Nat} (h : st.fb = true) :
    (schedStep st pr).fb = true := by
  rw [schedStep]
  cases placePairFirstFit pr.1 pr.2 st.rounds st.roundTeams with
  | some res => obtain ⟨a, b⟩ := res; exact h
  | none => rfl

theorem foldl_fb_mono :
    ∀ (pairs : List (Nat × Nat)) (st : SchedSt), st.fb = true →
      (pairs.foldl schedStep st).fb = true := by
  intro pairs
  induction pairs with
  | nil => intro st h; exact h
  | cons q qs ih => intro st h; exact ih _ (schedStep_fb_mono h)

theorem foldl_schedStep_teamInv :
    ∀ (pairs : List (Nat × Nat)) (st : SchedSt),
      TeamInv st.rounds st.roundTeams →
      (pairs.foldl schedStep st).fb = false →
      TeamInv (pairs.foldl schedStep st).rounds (pairs.foldl schedStep st).roundTeams := by
  intro pairs
  induction pairs with
  | nil => intro st hinv _; exact hinv
  | cons q qs ih =>
    intro st hinv hfb
    rw [List.foldl_cons] at hfb ⊢
    have hstep : TeamInv (schedStep st q).rounds (schedStep st q).roundTeams := by
      rw [schedStep] at hfb ⊢
      cases hpl : placePairFirstFit q.1 q.2 st.rounds st.roundTeams with
      | some res =>
        obtain ⟨a, b⟩ := res
        exact placePairFirstFit_teamInv hinv hpl
      | none =>
        rw [hpl] at hfb
        have : (SchedSt.mk (appendAt st.rounds (argminLen st.rounds) q)
            st.roundTeams true).fb = true := rfl
        rw [foldl_fb_mono qs _ this] at hfb
        exact absurd hfb (by simp)
    exact ih _ hstep hfb

theorem teamInv_init (k : Nat) :
    TeamInv (List.replicate k ([] : List (Nat × Nat))) (List.replicate k ([] : List Nat)) := by
  induction k with
  | zero => exact List.Forall₂.nil
  | succ m ih =>
    rw [List.replicate_succ, List.replicate_succ]
    refine List.Forall₂.cons ?_ ih
    intro t
    simp

theorem forall₂_mem_left {α β : Type} {R : α → β → Prop} :
    ∀ {l1 : List α} {l2 : List β}, List.Forall₂ R l1 l2 → ∀ a ∈ l1, ∃ b, R a b := by
  intro l1
  induction l1 with
  | nil => intro l2 _ a ha; simp at ha
  | cons x xs ih =>
    intro l2 h a ha
    rcases h with _ | ⟨hrel, hrest⟩
    rcases List.mem_cons.mp ha with rfl | ha2
    · exact ⟨_, hrel⟩
    · exact ih hrest a ha2

/-! #### The generation path of generate_round_robin_for_group -/

/-- With no pre-existing matches for the group and at least two teams, the
function takes its generation path. -/
theorem roundRobin_genPath (groupTeams : List Nat) (allMatches : List FMatch)
    (groupName : List Char) (startDate startRound : Int)
    (hn : 2 ≤ groupTeams.length)
    (hex : allMatches.filter (fun m => startsWith groupName m.pitch) = []) :
    generate_round_robin_for_group groupTeams allMatches groupName startDate startRound =
      ⟨buildRounds groupName startDate startRound
         (scheduleAll (combinations2 groupTeams) (max 1 (groupTeams.length - 1))).rounds 0,
       (buildRounds groupName startDate startRound
         (scheduleAll (combinations2 groupTeams) (max 1 (groupTeams.length - 1))).rounds 0).length,
       (scheduleAll (combinations2 groupTeams) (max 1 (groupTeams.length - 1))).fb⟩ := by
  have hpairs : existingPairsOf [] = [] := rfl
  have hfilter : (combinations2 groupTeams).filter
      (fun pr => decide (sortPair pr.1 pr.2 ∉ ([] : List (Nat × Nat)))) =
      combinations2 groupTeams := by
    rw [List.filter_eq_self]
    intro pr _
    simp
  have h2 : 2 * 1 ≤ groupTeams.length * (groupTeams.length - 1) :=
    Nat.mul_le_mul hn (by omega)
  have hc1 : ¬ (groupTeams.length < 2) := by omega
  have hc2 : ¬ ((0 : Nat) = groupTeams.length * (groupTeams.length - 1) / 2) := by omega
  simp only [generate_round_robin_for_group, hex, hpairs, hfilter, List.length_nil,
    if_neg hc1, if_neg hc2]

/-- With no pre-existing matches the generation path produces exactly
n(n-1)/2 matches. -/
theorem roundRobin_result_length (groupTeams : List Nat) (allMatches : List FMatch)
    (groupName : List Char) (startDate startRound : Int)
    (hn : 2 ≤ groupTeams.length)
    (hex : allMatches.filter (fun m => startsWith groupName m.pitch) = []) :
    (generate_round_robin_for_group groupTeams allMatches groupName startDate
      startRound).result.length = groupTeams.length * (groupTeams.length - 1) / 2 := by
  rw [roundRobin_genPath groupTeams allMatches groupName startDate startRound hn hex]
  have hnum : 1 ≤ max 1 (groupTeams.length - 1) := le_max_left _ _
  have hb := buildRounds_length groupName startDate startRound
    (scheduleAll (combinations2 groupTeams) (max 1 (groupTeams.length - 1))).rounds 0
  have hs := (scheduleAll_count (fun _ => true)
    (combinations2 groupTeams) (max 1 (groupTeams.length - 1)) hnum).1
  have hc : (combinations2 groupTeams).countP (fun _ => true) =
      groupTeams.length * (groupTeams.length - 1) / 2 := by
    rw [List.countP_true]
    exact length_combinations2 groupTeams
  exact hb.trans (hs.trans hc)

/-- Claim C1: with no pre-existing matches for the group and n distinct teams,
n at least 2, the generated schedule has exactly n(n-1)/2 matches, every
unordered pair of distinct teams appears exactly once, and every team appears
in exactly n-1 matches. -/
theorem round_robin_completeness (groupTeams : List Nat) (allMatches : List FMatch)
    (groupName : List Char) (startDate startRound : Int)
    (hn : 2 ≤ groupTeams.length) (hnd : groupTeams.Nodup)
    (hex : allMatches.filter (fun m => startsWith groupName m.pitch) = []) :
    (generate_round_robin_for_group groupTeams allMatches groupName startDate
        startRound).result.length = groupTeams.length * (groupTeams.length - 1) / 2 ∧
    (∀ a ∈ groupTeams, ∀ b ∈ groupTeams, a ≠ b →
      (generate_round_robin_for_group groupTeams allMatches groupName startDate
        startRound).result.countP
          (fun rm => decide (sortPair rm.2.home rm.2.away = sortPair a b)) = 1) ∧
    (∀ t ∈ groupTeams,
      (generate_round_robin_for_group groupTeams allMatches groupName startDate
        startRound).result.countP
          (fun rm => decide (rm.2.home = t ∨ rm.2.away = t)) =
        groupTeams.length - 1) := by
  refine ⟨roundRobin_result_length groupTeams allMatches groupName startDate startRound
    hn hex, ?_, ?_⟩
  all_goals rw [roundRobin_genPath groupTeams allMatches groupName startDate startRound hn hex]
  all_goals have hnum : 1 ≤ max 1 (groupTeams.length - 1) := le_max_left _ _
  · intro a ha b hb hab
    have hbp := buildRounds_countP groupName startDate startRound
      (fun pr => decide (sortPair pr.1 pr.2 = sortPair a b))
      (scheduleAll (combinations2 groupTeams) (max 1 (groupTeams.length - 1))).rounds 0
    have hs := (scheduleAll_count
      (fun pr => decide (sortPair pr.1 pr.2 = sortPair a b))
      (combinations2 groupTeams) (max 1 (groupTeams.length - 1)) hnum).1
    exact hbp.trans (hs.trans (countP_combinations2_pair hnd ha hb hab))
  · intro t ht
    have hbp := buildRounds_countP groupName startDate startRound
      (fun pr => decide (pr.1 = t ∨ pr.2 = t))
      (scheduleAll (combinations2 groupTeams) (max 1 (groupTeams.length - 1))).rounds 0
    have hs := (scheduleAll_count
      (fun pr => decide (pr.1 = t ∨ pr.2 = t))
      (combinations2 groupTeams) (max 1 (groupTeams.length - 1)) hnum).1
    exact hbp.trans (hs.trans (countP_combinations2_team hnd ht))

/-- Witness for round_robin_completeness at the four-team group [1,2,3,4]. -/
theorem round_robin_completeness_witness :
    2 ≤ ([1, 2, 3, 4] : List Nat).length ∧
    (generate_round_robin_for_group [1, 2, 3, 4] [] (strL "Group A") 0 1).result.length =
      ([1, 2, 3, 4] : List Nat).length * (([1, 2, 3, 4] : List Nat).length - 1) / 2 :=
  ⟨by decide,
   (round_robin_completeness [1, 2, 3, 4] [] (strL "Group A") 0 1
      (by decide) (by decide) rfl).1⟩

/-- Claim C7 counterexample: for the five-team group [0,1,2,3,4] with no
pre-existing matches, the fallback placement fires and round 1 of the
generated schedule contains two matches involving team 1, so the claim that
no team is ever assigned two matches in the same round is false. -/
theorem round_scheduler_clash_counterexample :
    (generate_round_robin_for_group [0, 1, 2, 3, 4] [] (strL "Group A") 0 1).result.countP
        (fun rm => decide (rm.1 = 1) && decide (rm.2.home = 1 ∨ rm.2.away = 1)) = 2 ∧
    (generate_round_robin_for_group [0, 1, 2, 3, 4] [] (strL "Group A") 0 1).usedFallback
      = true := by
  constructor
  · decide
  · decide

/-- Claim C7 (amended): pairs are placed into the first round in which neither
team already appears, and otherwise into the round with the fewest pairs so
far, which can give a team two matches in one round; whenever that fallback
never fires, every team appears in at most one match of every round. -/
theorem round_scheduler_no_clash_without_fallback (groupTeams : List Nat)
    (allMatches : List FMatch) (groupName : List Char) (startDate startRound : Int)
    (hex : allMatches.filter (fun m => startsWith groupName m.pitch) = [])
    (hfb : (generate_round_robin_for_group groupTeams allMatches groupName startDate
      startRound).usedFallback = false) :
    ∀ (K : Int) (t : Nat),
      (generate_round_robin_for_group groupTeams allMatches groupName startDate
        startRound).result.countP
          (fun rm => decide (rm.1 = K) && decide (rm.2.home = t ∨ rm.2.away = t)) ≤ 1 := by
  intro K t
  by_cases hn : 2 ≤ groupTeams.length
  · rw [roundRobin_genPath groupTeams allMatches groupName startDate startRound hn hex]
    have hfb2 : (scheduleAll (combinations2 groupTeams)
        (max 1 (groupTeams.length - 1))).fb = false := by
      rw [roundRobin_genPath groupTeams allMatches groupName startDate startRound hn hex] at hfb
      exact hfb
    have hInv : TeamInv
        (scheduleAll (combinations2 groupTeams) (max 1 (groupTeams.length - 1))).rounds
        (scheduleAll (combinations2 groupTeams) (max 1 (groupTeams.length - 1))).roundTeams :=
      foldl_schedStep_teamInv (combinations2 groupTeams)
        ⟨List.replicate (max 1 (groupTeams.length - 1)) [],
         List.replicate (max 1 (groupTeams.length - 1)) [], false⟩
        (teamInv_init _) hfb2
    have hbound : ∀ round ∈ (scheduleAll (combinations2 groupTeams)
        (max 1 (groupTeams.length - 1))).rounds,
        round.countP (fun pr => decide (pr.1 = t ∨ pr.2 = t)) ≤ 1 := by
      intro round hr
      obtain ⟨s, hrel⟩ := forall₂_mem_left hInv round hr
      have h1 := hrel t
      have h2 : (if t ∈ s then 1 else 0) ≤ 1 := by split <;> omega
      omega
    exact buildRounds_round_countP (fun pr => decide (pr.1 = t ∨ pr.2 = t)) _ 0 K hbound
  · have hc1 : groupTeams.length < 2 := by omega
    simp only [generate_round_robin_for_group, if_pos hc1]
    simp

/-! #### Idempotence machinery -/

theorem nodup_sortPairs_combinations2 {l : List Nat} (hnd : l.Nodup) :
    ((combinations2 l).map (fun pr => sortPair pr.1 pr.2)).Nodup := by
  induction l with
  | nil => simp [combinations2]
  | cons x xs ih =>
    have hnd2 := List.nodup_cons.mp hnd
    simp only [combinations2, List.map_append, List.map_map]
    rw [List.nodup_append]
    refine ⟨?_, ih hnd2.2, ?_⟩
    · refine List.Nodup.map_on ?_ hnd2.2
      intro y1 _ y2 _ heq
      exact sortPair_left_eq heq
    · intro p hp hp2
      obtain ⟨y, hy, hyeq⟩ := List.mem_map.mp hp
      obtain ⟨pr, hpr, hpreq⟩ := List.mem_map.mp hp2
      have heq : sortPair x y = sortPair pr.1 pr.2 := by
        have h1 : sortPair x y = p := hyeq
        rw [h1, hpreq]
      have hm := mem_combinations2 hpr
      rcases sortPair_eq_iff.mp heq with ⟨h1, _⟩ | ⟨h1, _⟩
      · exact hnd2.1 (h1 ▸ hm.1)
      · exact hnd2.1 (h1 ▸ hm.2)

/-- The early-return path taken when every expected pair already exists. -/
theorem roundRobin_earlyReturn (groupTeams : List Nat) (allMatches : List FMatch)
    (groupName : List Char) (startDate startRound : Int)
    (hn : ¬ (groupTeams.length < 2))
    (heq : (existingPairsOf (allMatches.filter
        (fun m => startsWith groupName m.pitch))).length =
      groupTeams.length * (groupTeams.length - 1) / 2) :
    generate_round_robin_for_group groupTeams allMatches groupName startDate startRound =
      ⟨reorganizeByRound startRound
        (allMatches.filter (fun m => startsWith groupName m.pitch)), 0, false⟩ := by
  simp only [generate_round_robin_for_group, if_neg hn, if_pos heq]

theorem scheduleAll_flatten_countP (p : Nat × Nat → Bool) (pairs : List (Nat × Nat))
    (k : Nat) (hk : 1 ≤ k) :
    (scheduleAll pairs k).rounds.flatten.countP p = pairs.countP p := by
  rw [List.countP_flatten]
  exact (scheduleAll_count p pairs k hk).1

theorem scheduleAll_flatten_mem {pairs : List (Nat × Nat)} {k : Nat} (hk : 1 ≤ k)
    {q : Nat × Nat} (hq : q ∈ (scheduleAll pairs k).rounds.flatten) : q ∈ pairs := by
  have hc := scheduleAll_flatten_countP (fun x => decide (x = q)) pairs k hk
  have hpos : 0 < pairs.countP (fun x => decide (x = q)) := by
    rw [← hc, List.countP_pos]
    exact ⟨q, hq, by simp⟩
  obtain ⟨a, ha, hpa⟩ := List.countP_pos.mp hpos
  simp only [decide_eq_true_eq] at hpa
  exact hpa ▸ ha

/-- Duplicate-freeness in terms of decidable-equality counts. -/
theorem nodup_iff_countP_le_one {α : Type} [DecidableEq α] {l : List α} :
    l.Nodup ↔ ∀ a : α, l.countP (fun x => decide (x = a)) ≤ 1 := by
  induction l with
  | nil => simp
  | cons x xs ih =>
    rw [List.nodup_cons]
    constructor
    · rintro ⟨hx, hnd⟩ a
      rw [List.countP_cons]
      by_cases hax : x = a
      · have h0 : xs.countP (fun y => decide (y = a)) = 0 := by
          rw [List.countP_eq_zero]
          intro y hy
          simp only [decide_eq_true_eq]
          intro hya
          exact hx ((hya.trans hax.symm) ▸ hy)
        simp [h0, hax]
      · have h1 := ih.mp hnd a
        simp [hax]
        omega
    · intro h
      constructor
      · intro hxs
        have h2 := h x
        rw [List.countP_cons] at h2
        have hif : (if (decide (x = x)) = true then 1 else 0) = 1 := by simp
        rw [hif] at h2
        have hpos : 0 < xs.countP (fun y => decide (y = x)) := by
          rw [List.countP_pos]
          exact ⟨x, hxs, by simp⟩
        omega
      · apply ih.mpr
        intro a
        have h2 := h a
        rw [List.countP_cons] at h2
        omega

theorem startsWith_roundPitch (g : List Char) (K : Int) :
    startsWith g (roundPitch g K) = true := by
  unfold startsWith roundPitch
  rw [isPrefixOf_iff_exists]
  exact ⟨strL " - Round " ++ (toString K).data, (List.append_assoc g _ _).symm⟩

theorem foldl_existingPairs_eq :
    ∀ (ms : List FMatch) (acc : List (Nat × Nat)),
      (acc ++ ms.map (fun m => sortPair m.home m.away)).Nodup →
      ms.foldl (fun s m => insertPairSet s (sortPair m.home m.away)) acc =
        acc ++ ms.map (fun m => sortPair m.home m.away) := by
  intro ms
  induction ms with
  | nil => intro acc _; simp
  | cons m rest ih =>
    intro acc h
    rw [List.map_cons, List.append_cons] at h
    have hnotin : sortPair m.home m.away ∉ acc := by
      intro hmem
      have hdisj := List.disjoint_of_nodup_append
        (by rw [← List.append_cons] at h; exact h)
      exact hdisj hmem (List.mem_cons_self _ _)
    rw [List.foldl_cons]
    have hins : insertPairSet acc (sortPair m.home m.away) =
        acc ++ [sortPair m.home m.away] := by
      rw [insertPairSet, if_neg hnotin]
    rw [hins, ih (acc ++ [sortPair m.home m.away]) h, List.map_cons]
    exact (List.append_cons acc _ _).symm

theorem existingPairsOf_eq_map (ms : List FMatch)
    (h : (ms.map (fun m => sortPair m.home m.away)).Nodup) :
    existingPairsOf ms = ms.map (fun m => sortPair m.home m.away) := by
  have h2 := foldl_existingPairs_eq ms [] (by simpa using h)
  rw [List.nil_append] at h2
  exact h2

/-- The generation path taken whenever the existing pair count differs from
the expected count (and there are at least two teams). -/
theorem roundRobin_genPath_general (groupTeams : List Nat) (allMatches : List FMatch)
    (groupName : List Char) (startDate startRound : Int)
    (hn : 2 ≤ groupTeams.length)
    (hne : ¬ ((existingPairsOf (allMatches.filter
        (fun m => startsWith groupName m.pitch))).length =
      groupTeams.length * (groupTeams.length - 1) / 2)) :
    generate_round_robin_for_group groupTeams allMatches groupName startDate startRound =
      ⟨buildRounds groupName startDate startRound
         (scheduleAll ((combinations2 groupTeams).filter
            (fun pr => decide (sortPair pr.1 pr.2 ∉ existingPairsOf (allMatches.filter
              (fun m => startsWith groupName m.pitch)))))
           (max 1 (groupTeams.length - 1))).rounds 0,
       (buildRounds groupName startDate startRound
         (scheduleAll ((combinations2 groupTeams).filter
            (fun pr => decide (sortPair pr.1 pr.2 ∉ existingPairsOf (allMatches.filter
              (fun m => startsWith groupName m.pitch)))))
           (max 1 (groupTeams.length - 1))).rounds 0).length,
       (scheduleAll ((combinations2 groupTeams).filter
          (fun pr => decide (sortPair pr.1 pr.2 ∉ existingPairsOf (allMatches.filter
            (fun m => startsWith groupName m.pitch)))))
         (max 1 (groupTeams.length - 1))).fb⟩ := by
  have hc1 : ¬ (groupTeams.length < 2) := by omega
  simp only [generate_round_robin_for_group, if_neg hc1, if_neg hne]

/-- Claim C8: already-scheduled pairs are skipped; when the existing pair
count equals n(n-1)/2 the call creates nothing and returns the existing
matches reorganized by round; and a second call that sees the first call's
output as the existing matches creates zero additional matches. -/
theorem round_robin_generation_idempotent (groupTeams : List Nat)
    (allMatches : List FMatch) (groupName : List Char) (startDate startRound : Int) :
    (¬ ((existingPairsOf (allMatches.filter
          (fun m => startsWith groupName m.pitch))).length =
        groupTeams.length * (groupTeams.length - 1) / 2) →
      ∀ rm ∈ (generate_round_robin_for_group groupTeams allMatches groupName startDate
          startRound).result,
        sortPair rm.2.home rm.2.away ∉
          existingPairsOf (allMatches.filter (fun m => startsWith groupName m.pitch))) ∧
    (2 ≤ groupTeams.length →
      (existingPairsOf (allMatches.filter
          (fun m => startsWith groupName m.pitch))).length =
        groupTeams.length * (groupTeams.length - 1) / 2 →
      (generate_round_robin_for_group groupTeams allMatches groupName startDate
          startRound).result = reorganizeByRound startRound
            (allMatches.filter (fun m => startsWith groupName m.pitch)) ∧
      (generate_round_robin_for_group groupTeams allMatches groupName startDate
          startRound).createdCount = 0) ∧
    (2 ≤ groupTeams.length → groupTeams.Nodup →
      allMatches.filter (fun m => startsWith groupName m.pitch) = [] →
      (generate_round_robin_for_group groupTeams
          ((generate_round_robin_for_group groupTeams allMatches groupName startDate
            startRound).result.map (fun rm => rm.2))
          groupName startDate startRound).createdCount = 0) := by
  refine ⟨?_, ?_, ?_⟩
  · -- (a) pairs already present are never re-created
    intro hne rm hrm
    by_cases hn : 2 ≤ groupTeams.length
    · rw [roundRobin_genPath_general groupTeams allMatches groupName startDate startRound
        hn hne] at hrm
      have hq : (rm.2.home, rm.2.away) ∈
          (scheduleAll ((combinations2 groupTeams).filter
            (fun pr => decide (sortPair pr.1 pr.2 ∉ existingPairsOf (allMatches.filter
              (fun m => startsWith groupName m.pitch)))))
            (max 1 (groupTeams.length - 1))).rounds.flatten := by
        rw [← buildRounds_pairs groupName startDate startRound _ 0]
        exact List.mem_map_of_mem _ hrm
      have hq2 := scheduleAll_flatten_mem (le_max_left _ _) hq
      have hdec := List.of_mem_filter hq2
      simpa using hdec
    · have hc1 : groupTeams.length < 2 := by omega
      simp only [generate_round_robin_for_group, if_pos hc1] at hrm
      simp at hrm
  · -- (b) a full existing pair set is a no-op returning the reorganization
    intro hn heq
    have hc1 : ¬ (groupTeams.length < 2) := by omega
    have hres : generate_round_robin_for_group groupTeams allMatches groupName
        startDate startRound = ⟨reorganizeByRound startRound
          (allMatches.filter (fun m => startsWith groupName m.pitch)), 0, false⟩ := by
      simp only [generate_round_robin_for_group, if_neg hc1, if_pos heq]
    rw [hres]
    exact ⟨rfl, rfl⟩
  · -- (c) the second call sees all pairs present and creates nothing
    intro hn hnd hex
    have hc1 : ¬ (groupTeams.length < 2) := by omega
    have hpath := roundRobin_genPath groupTeams allMatches groupName startDate startRound
      hn hex
    -- every generated match has a pitch extending the group name
    have hF2 : ((generate_round_robin_for_group groupTeams allMatches groupName startDate
        startRound).result.map (fun rm => rm.2)).filter
          (fun m => startsWith groupName m.pitch) =
        (generate_round_robin_for_group groupTeams allMatches groupName startDate
          startRound).result.map (fun rm => rm.2) := by
      rw [List.filter_eq_self]
      intro m hm
      obtain ⟨rm, hrm, rfl⟩ := List.mem_map.mp hm
      rw [hpath] at hrm
      have hshape := (buildRounds_shape hrm).1
      rw [hshape]
      exact startsWith_roundPitch groupName rm.1
    -- the multiset of generated normalized pairs is the set of combinations
    have hpairseq : (generate_round_robin_for_group groupTeams allMatches groupName
        startDate startRound).result.map (fun rm => (rm.2.home, rm.2.away)) =
        (scheduleAll (combinations2 groupTeams)
          (max 1 (groupTeams.length - 1))).rounds.flatten := by
      rw [hpath]
      exact buildRounds_pairs groupName startDate startRound _ 0
    have hndsp : (((generate_round_robin_for_group groupTeams allMatches groupName
        startDate startRound).result.map (fun rm => rm.2)).map
          (fun m => sortPair m.home m.away)).Nodup := by
      have heqmaps : ((generate_round_robin_for_group groupTeams allMatches groupName
          startDate startRound).result.map (fun rm => rm.2)).map
            (fun m => sortPair m.home m.away) =
          ((generate_round_robin_for_group groupTeams allMatches groupName
            startDate startRound).result.map (fun rm => (rm.2.home, rm.2.away))).map
            (fun pr => sortPair pr.1 pr.2) := by
        rw [List.map_map, List.map_map]
        rfl
      rw [heqmaps, hpairseq, nodup_iff_countP_le_one]
      intro b
      rw [List.countP_map]
      have hflat := scheduleAll_flatten_countP
        ((fun y => decide (y = b)) ∘ (fun pr => sortPair pr.1 pr.2))
        (combinations2 groupTeams) (max 1 (groupTeams.length - 1)) (le_max_left _ _)
      have hcomb : (combinations2 groupTeams).countP
          ((fun y => decide (y = b)) ∘ (fun pr => sortPair pr.1 pr.2)) =
          ((combinations2 groupTeams).map (fun pr => sortPair pr.1 pr.2)).countP
            (fun y => decide (y = b)) := (List.countP_map _ _ _).symm
      have hle := nodup_iff_countP_le_one.mp (nodup_sortPairs_combinations2 hnd) b
      calc ((scheduleAll (combinations2 groupTeams)
            (max 1 (groupTeams.length - 1))).rounds.flatten).countP
            ((fun y => decide (y = b)) ∘ (fun pr => sortPair pr.1 pr.2))
          = (combinations2 groupTeams).countP
            ((fun y => decide (y = b)) ∘ (fun pr => sortPair pr.1 pr.2)) := hflat
        _ = ((combinations2 groupTeams).map (fun pr => sortPair pr.1 pr.2)).countP
            (fun y => decide (y = b)) := hcomb
        _ ≤ 1 := hle
    have hE2 : existingPairsOf ((generate_round_robin_for_group groupTeams allMatches
        groupName startDate startRound).result.map (fun rm => rm.2)) =
        ((generate_round_robin_for_group groupTeams allMatches groupName startDate
          startRound).result.map (fun rm => rm.2)).map
          (fun m => sortPair m.home m.away) :=
      existingPairsOf_eq_map _ hndsp
    have hlen : (existingPairsOf (((generate_round_robin_for_group groupTeams allMatches
        groupName startDate startRound).result.map (fun rm => rm.2)).filter
          (fun m => startsWith groupName m.pitch))).length =
        groupTeams.length * (groupTeams.length - 1) / 2 := by
      rw [hF2, hE2, List.length_map, List.length_map]
      exact roundRobin_result_length groupTeams allMatches groupName startDate startRound
        hn hex
    rw [roundRobin_earlyReturn groupTeams _ groupName startDate startRound hc1 hlen]

/-- Witness for round_scheduler_no_clash_without_fallback: four teams never
need the fallback, so round 1 holds team 1 at most once. -/
theorem round_scheduler_no_clash_witness :
    (generate_round_robin_for_group [1, 2, 3, 4] [] (strL "Group A") 0 1).result.countP
      (fun rm => decide (rm.1 = 1) && decide (rm.2.home = 1 ∨ rm.2.away = 1)) ≤ 1 :=
  round_scheduler_no_clash_without_fallback [1, 2, 3, 4] [] (strL "Group A") 0 1 rfl
    (by decide) 1 1

/-- Witness for round_robin_generation_idempotent: the second call on the
first call's own three-team output creates zero matches. -/
theorem round_robin_generation_idempotent_witness :
    (generate_round_robin_for_group [1, 2, 3]
      ((generate_round_robin_for_group [1, 2, 3] [] (strL "Group A") 0 1).result.map
        (fun rm => rm.2))
      (strL "Group A") 0 1).createdCount = 0 :=
  (round_robin_generation_idempotent [1, 2, 3] [] (strL "Group A") 0 1).2.2
    (by decide) (by decide) rfl

/-! ### simulation_helpers: knockout round progression -/

/-- Claim C2: in round advancement the strictly higher score wins; level
scores are decided by strictly higher penalties; level or missing penalties
yield no winner from that match; and a winners list shorter than 2 aborts the
advancement with no match created. -/
theorem knockout_winner_rules :
    (∀ (m : KMatch) (a b : Nat), m.status = MStatus.finished →
      m.homeScore = some a → m.awayScore = some b → a > b → matchWinner m = m.home) ∧
    (∀ (m : KMatch) (a b : Nat), m.status = MStatus.finished →
      m.homeScore = some a → m.awayScore = some b → b > a → matchWinner m = m.away) ∧
    (∀ (m : KMatch) (a p q : Nat), m.status = MStatus.finished →
      m.homeScore = some a → m.awayScore = some a →
      m.homePens = some p → m.awayPens = some q →
      (p > q → matchWinner m = m.home) ∧ (q > p → matchWinner m = m.away) ∧
      (p = q → matchWinner m = none)) ∧
    (∀ (m : KMatch) (a : Nat), m.status = MStatus.finished →
      m.homeScore = some a → m.awayScore = some a →
      (m.homePens = none ∨ m.awayPens = none) → matchWinner m = none) ∧
    (∀ (allM : List KMatch) (name : List Char),
      (extractWinners (selectRoundMatches allM (stripStr name))).length < 2 →
      generate_next_knockout_round allM name = none) := by
  refine ⟨?_, ?_, ?_, ?_, ?_⟩
  · intro m a b hst hhs has hab
    simp [matchWinner, hhs, has, hst, hab]
  · intro m a b hst hhs has hab
    have hnab : ¬ (a > b) := by omega
    simp [matchWinner, hhs, has, hst, hab, hnab]
  · intro m a p q hst hhs has hhp hap
    refine ⟨?_, ?_, ?_⟩
    · intro hpq
      simp [matchWinner, hhs, has, hst, hhp, hap, hpq]
    · intro hpq
      have hn : ¬ (p > q) := by omega
      simp [matchWinner, hhs, has, hst, hhp, hap, hpq, hn]
    · intro hpq
      subst hpq
      simp [matchWinner, hhs, has, hst, hhp, hap]
  · intro m a hst hhs has hpn
    rcases hpn with h | h
    · cases hq : m.awayPens <;> simp [matchWinner, hhs, has, hst, h, hq]
    · cases hq : m.homePens <;> simp [matchWinner, hhs, has, hst, h, hq]
  · intro allM name hw
    rw [generate_next_knockout_round]
    by_cases h0 : stripStr name = []
    · rw [if_pos h0]
    · rw [if_neg h0]
      by_cases h1 : selectRoundMatches allM (stripStr name) = []
      · rw [if_pos h1]
      · rw [if_neg h1]
        by_cases h2 : (selectRoundMatches allM (stripStr name)).any
            (fun m => decide (m.status = MStatus.scheduled ∨ m.status = MStatus.live)) = true
        · simp only [h2, if_true]
        · simp only [h2, if_false, Bool.false_eq_true]
          rw [if_pos hw]

/-- Witness for knockout_winner_rules: two drawn semi-finals without
penalties give zero winners, and advancement creates nothing. -/
theorem knockout_winner_rules_witness :
    (extractWinners (selectRoundMatches
        [KMatch.mk (some 1) (some 2) (some 2) (some 2) none none MStatus.finished
          (strL "Semi-Finals") 0,
         KMatch.mk (some 3) (some 4) (some 1) (some 1) none none MStatus.finished
          (strL "Semi-Finals") 0]
        (stripStr (strL "Semi-Finals")))).length < 2 ∧
    generate_next_knockout_round
      [KMatch.mk (some 1) (some 2) (some 2) (some 2) none none MStatus.finished
        (strL "Semi-Finals") 0,
       KMatch.mk (some 3) (some 4) (some 1) (some 1) none none MStatus.finished
        (strL "Semi-Finals") 0]
      (strL "Semi-Finals") = none :=
  ⟨by decide,
   knockout_winner_rules.2.2.2.2
     [KMatch.mk (some 1) (some 2) (some 2) (some 2) none none MStatus.finished
       (strL "Semi-Finals") 0,
      KMatch.mk (some 3) (some 4) (some 1) (some 1) none none MStatus.finished
       (strL "Semi-Finals") 0]
     (strL "Semi-Finals") (by decide)⟩

/-! #### Lemmas about the next-round existence check -/

theorem selectRoundMatches_eq (allM : List KMatch) (rn : List Char) :
    selectRoundMatches allM rn =
      if (nonGroupMatches allM).filter (fun m => iexact m.pitch rn) ≠ []
      then (nonGroupMatches allM).filter (fun m => iexact m.pitch rn)
      else (nonGroupMatches allM).filter (fun m => icontains m.pitch rn) := rfl

theorem nextRoundExistsCheck_eq (allM : List KMatch) (nextName : List Char) :
    nextRoundExistsCheck allM nextName =
      if ((nonGroupMatches allM).filter (fun m => iexact m.pitch nextName)).length > 0
      then true
      else if ((nonGroupMatches allM).filter
          (fun m => icontains m.pitch nextName)).length > 0 then
        if lowerStr nextName = strL "final" then
          ((nonGroupMatches allM).filter (fun m => icontains m.pitch nextName)).any
            (fun m => !m.pitch.isEmpty &&
              decide (lowerStr (stripStr m.pitch) = strL "final"))
        else true
      else false := rfl

/-- A pitch whose stripped lowering is exactly "final" contains "final"
case-insensitively. -/
theorem icontains_final_of_stripLower {p : List Char}
    (h : lowerStr (stripStr p) = strL "final") : icontains p (strL "Final") = true := by
  have hcomm : stripStr (lowerStr p) = strL "final" := by
    rw [stripStr_lowerStr_comm]
    exact h
  obtain ⟨pre, post, hsplit⟩ := stripStr_infix (lowerStr p)
  rw [hcomm] at hsplit
  have : containsSub (lowerStr p) (strL "final") = true := by
    rw [← hsplit]
    exact containsSub_of_append
  unfold icontains
  have hlow : lowerStr (strL "Final") = strL "final" := by decide
  rw [hlow]
  exact this

/-- An exact case-insensitive match on "Final" strips and lowers to "final". -/
theorem stripLower_of_iexact_final {p : List Char}
    (h : iexact p (strL "Final") = true) : lowerStr (stripStr p) = strL "final" := by
  unfold iexact at h
  rw [decide_eq_true_eq] at h
  have hlow : lowerStr (strL "Final") = strL "final" := by decide
  rw [hlow] at h
  rw [← stripStr_lowerStr_comm, h]
  decide

/-- A pitch whose stripped lowering equals a value is nonempty. -/
theorem pitch_ne_nil_of_stripLower {p : List Char}
    (h : lowerStr (stripStr p) = strL "final") : p.isEmpty = false := by
  cases p with
  | nil => exact absurd h (by decide)
  | cons c t => rfl

/-- iexact implies icontains. -/
theorem icontains_of_iexact {p n : List Char} (h : iexact p n = true) :
    icontains p n = true := by
  unfold iexact at h
  rw [decide_eq_true_eq] at h
  unfold icontains
  rw [h]
  exact containsSub_iff.mpr ⟨[], [], by simp⟩

/-- The existence check for the Final round aborts exactly when some
non-group match pitch strips (and lowers) to exactly "final". -/
theorem nextRoundExistsCheck_final_iff (allM : List KMatch) (nextName : List Char)
    (hfin : lowerStr nextName = strL "final") :
    nextRoundExistsCheck allM nextName = true ↔
      ∃ m ∈ nonGroupMatches allM, lowerStr (stripStr m.pitch) = strL "final" := by
  rw [nextRoundExistsCheck_eq, if_pos hfin]
  constructor
  · intro h
    by_cases hE : ((nonGroupMatches allM).filter
        (fun m => iexact m.pitch nextName)).length > 0
    · have hne : (nonGroupMatches allM).filter (fun m => iexact m.pitch nextName) ≠ [] := by
        intro hnil
        rw [hnil] at hE
        simp at hE
      obtain ⟨m, hm⟩ := List.exists_mem_of_ne_nil _ hne
      obtain ⟨hmem, hp⟩ := List.mem_filter.mp hm
      refine ⟨m, hmem, ?_⟩
      unfold iexact at hp
      rw [decide_eq_true_eq] at hp
      have hlow : lowerStr (strL "Final") = strL "final" := by decide
      rw [← stripStr_lowerStr_comm, hp, hfin]
      decide
    · rw [if_neg hE] at h
      by_cases hC : ((nonGroupMatches allM).filter
          (fun m => icontains m.pitch nextName)).length > 0
      · rw [if_pos hC] at h
        obtain ⟨m, hm, hpred⟩ := List.any_eq_true.mp h
        rw [Bool.and_eq_true, decide_eq_true_eq] at hpred
        exact ⟨m, (List.mem_filter.mp hm).1, hpred.2⟩
      · rw [if_neg hC] at h
        exact absurd h (by simp)
  · rintro ⟨m, hm, hfinal⟩
    have hcont : icontains m.pitch nextName = true := by
      have h1 := icontains_final_of_stripLower hfinal
      unfold icontains at h1 ⊢
      have hlow : lowerStr (strL "Final") = strL "final" := by decide
      rw [hlow] at h1
      rw [hfin]
      exact h1
    have hmC : m ∈ (nonGroupMatches allM).filter (fun x => icontains x.pitch nextName) :=
      List.mem_filter.mpr ⟨hm, hcont⟩
    have hClen : ((nonGroupMatches allM).filter
        (fun x => icontains x.pitch nextName)).length > 0 :=
      List.length_pos_of_mem hmC
    by_cases hE : ((nonGroupMatches allM).filter
        (fun m => iexact m.pitch nextName)).length > 0
    · rw [if_pos hE]
    · rw [if_neg hE, if_pos hClen, List.any_eq_true]
      refine ⟨m, hmC, ?_⟩
      rw [Bool.and_eq_true, decide_eq_true_eq]
      exact ⟨by rw [pitch_ne_nil_of_stripLower hfinal]; rfl, hfinal⟩

/-- For every round name other than Final the existence check aborts exactly
when some non-group match pitch contains the round name case-insensitively. -/
theorem nextRoundExistsCheck_other_iff (allM : List KMatch) (nextName : List Char)
    (hfin : lowerStr nextName ≠ strL "final") :
    nextRoundExistsCheck allM nextName = true ↔
      ∃ m ∈ nonGroupMatches allM, icontains m.pitch nextName = true := by
  rw [nextRoundExistsCheck_eq]
  constructor
  · intro h
    by_cases hE : ((nonGroupMatches allM).filter
        (fun m => iexact m.pitch nextName)).length > 0
    · have hne : (nonGroupMatches allM).filter (fun m => iexact m.pitch nextName) ≠ [] := by
        intro hnil
        rw [hnil] at hE
        simp at hE
      obtain ⟨m, hm⟩ := List.exists_mem_of_ne_nil _ hne
      obtain ⟨hmem, hp⟩ := List.mem_filter.mp hm
      exact ⟨m, hmem, icontains_of_iexact hp⟩
    · rw [if_neg hE] at h
      by_cases hC : ((nonGroupMatches allM).filter
          (fun m => icontains m.pitch nextName)).length > 0
      · have hne : (nonGroupMatches allM).filter
            (fun m => icontains m.pitch nextName) ≠ [] := by
          intro hnil
          rw [hnil] at hC
          simp at hC
        obtain ⟨m, hm⟩ := List.exists_mem_of_ne_nil _ hne
        obtain ⟨hmem, hp⟩ := List.mem_filter.mp hm
        exact ⟨m, hmem, hp⟩
      · rw [if_neg hC] at h
        exact absurd h (by simp)
  · rintro ⟨m, hm, hcont⟩
    have hmC : m ∈ (nonGroupMatches allM).filter (fun x => icontains x.pitch nextName) :=
      List.mem_filter.mpr ⟨hm, hcont⟩
    have hClen : ((nonGroupMatches allM).filter
        (fun x => icontains x.pitch nextName)).length > 0 :=
      List.length_pos_of_mem hmC
    by_cases hE : ((nonGroupMatches allM).filter
        (fun m => iexact m.pitch nextName)).length > 0
    · rw [if_pos hE]
    · rw [if_neg hE, if_pos hClen, if_neg hfin]

/-- Inverting a successful round advancement. -/
theorem generate_next_some_inv {allM : List KMatch} {name : List Char} {C : List KMatch}
    (h : generate_next_knockout_round allM name = some C) :
    stripStr name ≠ [] ∧
    selectRoundMatches allM (stripStr name) ≠ [] ∧
    (selectRoundMatches allM (stripStr name)).any
      (fun m => decide (m.status = MStatus.scheduled ∨ m.status = MStatus.live)) = false ∧
    2 ≤ (extractWinners (selectRoundMatches allM (stripStr name))).length ∧
    nextRoundExistsCheck allM
      (get_round_name (extractWinners (selectRoundMatches allM (stripStr name))).length)
      = false ∧
    ∃ d, maxKickoff (selectRoundMatches allM (stripStr name)) = some d ∧
      C = createNextMatches (extractWinners (selectRoundMatches allM (stripStr name)))
        (get_round_name (extractWinners (selectRoundMatches allM (stripStr name))).length)
        (d + 1) := by
  rw [generate_next_knockout_round] at h
  by_cases h0 : stripStr name = []
  · rw [if_pos h0] at h
    exact absurd h (by simp)
  rw [if_neg h0] at h
  by_cases h1 : selectRoundMatches allM (stripStr name) = []
  · rw [if_pos h1] at h
    exact absurd h (by simp)
  rw [if_neg h1] at h
  by_cases h2 : (selectRoundMatches allM (stripStr name)).any
      (fun m => decide (m.status = MStatus.scheduled ∨ m.status = MStatus.live)) = true
  · rw [if_pos h2] at h
    exact absurd h (by simp)
  rw [if_neg h2] at h
  by_cases h3 : (extractWinners (selectRoundMatches allM (stripStr name))).length < 2
  · rw [if_pos h3] at h
    exact absurd h (by simp)
  rw [if_neg h3] at h
  by_cases h4 : nextRoundExistsCheck allM
      (get_round_name (extractWinners (selectRoundMatches allM (stripStr name))).length)
      = true
  · rw [if_pos h4] at h
    exact absurd h (by simp)
  rw [if_neg h4] at h
  cases hmk : maxKickoff (selectRoundMatches allM (stripStr name)) with
  | none =>
    rw [hmk] at h
    exact absurd h (by simp)
  | some d =>
    rw [hmk] at h
    rw [Option.some_inj] at h
    refine ⟨h0, h1, by simpa using h2, by omega, by simpa using h4, d, rfl, h.symm⟩

theorem createNextMatches_fields {winners : List Nat} {n : List Char} {d : Int}
    {m : KMatch} (h : m ∈ createNextMatches winners n d) :
    m.status = MStatus.scheduled ∧ m.pitch = n := by
  unfold createNextMatches at h
  obtain ⟨i, _, heq⟩ := List.mem_filterMap.mp h
  cases h1 : winners[2 * i]? with
  | none =>
    rw [h1] at heq
    simp at heq
  | some a =>
    cases h2 : winners[2 * i + 1]? with
    | none =>
      rw [h1, h2] at heq
      simp at heq
    | some b =>
      rw [h1, h2] at heq
      rw [Option.some_inj] at heq
      rw [← heq]
      exact ⟨rfl, rfl⟩

theorem createNextMatches_ne_nil {winners : List Nat} {n : List Char} {d : Int}
    (hw : 2 ≤ winners.length) : createNextMatches winners n d ≠ [] := by
  have h1 : 0 < winners.length := by omega
  have h2 : 1 < winners.length := by omega
  have h0 : (0 : Nat) ∈ List.range (winners.length / 2) := by
    rw [List.mem_range]
    omega
  have e1 : winners[2 * 0]? = some winners[0] := List.getElem?_eq_getElem h1
  have e2 : winners[2 * 0 + 1]? = some winners[1] := List.getElem?_eq_getElem h2
  intro hnil
  have hmem : (KMatch.mk (some winners[0]) (some winners[1]) none none none none
      MStatus.scheduled n d) ∈ createNextMatches winners n d := by
    unfold createNextMatches
    rw [List.mem_filterMap]
    refine ⟨0, h0, ?_⟩
    rw [e1, e2]
  rw [hnil] at hmem
  simp at hmem

theorem get_round_name_not_group (w : Nat) :
    icontains (get_round_name w) (strL "Group") = false := by
  unfold get_round_name
  by_cases h16 : w ≥ 16
  · rw [if_pos h16]
    decide
  rw [if_neg h16]
  by_cases h8 : w ≥ 8
  · rw [if_pos h8]
    decide
  rw [if_neg h8]
  by_cases h4 : w ≥ 4
  · rw [if_pos h4]
    decide
  rw [if_neg h4]
  decide

/-- Appending matches that the round filter does not select leaves the
completed-round queryset unchanged. -/
theorem selectRoundMatches_append_stable {allM C : List KMatch} {rn : List Char}
    (hint : ∀ m ∈ C, m ∉ selectRoundMatches (allM ++ C) rn) :
    selectRoundMatches (allM ++ C) rn = selectRoundMatches allM rn := by
  have hng : nonGroupMatches (allM ++ C) = nonGroupMatches allM ++ nonGroupMatches C :=
    List.filter_append _ _
  have hEC : (nonGroupMatches C).filter (fun m => iexact m.pitch rn) = [] := by
    by_contra hne
    obtain ⟨m, hm⟩ := List.exists_mem_of_ne_nil _ hne
    have hmC : m ∈ C := List.mem_of_mem_filter (List.mem_filter.mp hm).1
    apply hint m hmC
    rw [selectRoundMatches_eq, hng, List.filter_append]
    have hE2ne : (nonGroupMatches allM).filter (fun m => iexact m.pitch rn) ++
        (nonGroupMatches C).filter (fun m => iexact m.pitch rn) ≠ [] := by
      intro hnil
      rw [List.append_eq_nil] at hnil
      rw [hnil.2] at hm
      simp at hm
    rw [if_pos hE2ne]
    exact List.mem_append_right _ hm
  rw [selectRoundMatches_eq, selectRoundMatches_eq, hng, List.filter_append,
    List.filter_append, hEC, List.append_nil]
  by_cases hE1 : (nonGroupMatches allM).filter (fun m => iexact m.pitch rn) ≠ []
  · rw [if_pos hE1, if_pos hE1]
  · rw [if_neg hE1, if_neg hE1]
    have hCC : (nonGroupMatches C).filter (fun m => icontains m.pitch rn) = [] := by
      by_contra hne
      obtain ⟨m, hm⟩ := List.exists_mem_of_ne_nil _ hne
      have hmC : m ∈ C := List.mem_of_mem_filter (List.mem_filter.mp hm).1
      apply hint m hmC
      rw [selectRoundMatches_eq, hng, List.filter_append, List.filter_append, hEC,
        List.append_nil, if_neg hE1]
      exact List.mem_append_right _ hm
    rw [hCC, List.append_nil]

/-- Claim C3: round advancement never double-creates a round. The existence
check aborts exactly on an exact trimmed case-insensitive pitch match when
the next round is the Final, and on a case-insensitive substring match for
every other round name; and once an advancement has created its matches, a
second trigger on the resulting state creates nothing. -/
theorem no_double_round_creation :
    (∀ (allM : List KMatch) (nextName : List Char),
      lowerStr nextName = strL "final" →
      (nextRoundExistsCheck allM nextName = true ↔
        ∃ m ∈ nonGroupMatches allM, lowerStr (stripStr m.pitch) = strL "final")) ∧
    (∀ (allM : List KMatch) (nextName : List Char),
      lowerStr nextName ≠ strL "final" →
      (nextRoundExistsCheck allM nextName = true ↔
        ∃ m ∈ nonGroupMatches allM, icontains m.pitch nextName = true)) ∧
    (∀ (allM : List KMatch) (name : List Char) (C : List KMatch),
      generate_next_knockout_round allM name = some C →
      generate_next_knockout_round (allM ++ C) name = none) := by
  refine ⟨nextRoundExistsCheck_final_iff, nextRoundExistsCheck_other_iff, ?_⟩
  intro allM name C h
  obtain ⟨h0, h1, h2, h3, h4, d, hmk, hC⟩ := generate_next_some_inv h
  have hCne : C ≠ [] := by
    rw [hC]
    exact createNextMatches_ne_nil h3
  have hCfields : ∀ m ∈ C, m.status = MStatus.scheduled ∧
      m.pitch = get_round_name
        (extractWinners (selectRoundMatches allM (stripStr name))).length := by
    intro m hm
    rw [hC] at hm
    exact createNextMatches_fields hm
  by_cases hint : ∃ m ∈ C, m ∈ selectRoundMatches (allM ++ C) (stripStr name)
  · obtain ⟨m, hmC, hmS⟩ := hint
    rw [generate_next_knockout_round, if_neg h0]
    have hS2ne : ¬ (selectRoundMatches (allM ++ C) (stripStr name) = []) := by
      intro hnil
      rw [hnil] at hmS
      simp at hmS
    rw [if_neg hS2ne]
    have hany : (selectRoundMatches (allM ++ C) (stripStr name)).any
        (fun m => decide (m.status = MStatus.scheduled ∨ m.status = MStatus.live))
        = true := by
      rw [List.any_eq_true]
      refine ⟨m, hmS, ?_⟩
      rw [decide_eq_true_eq]
      exact Or.inl (hCfields m hmC).1
    rw [if_pos hany]
  · push_neg at hint
    have hstable := selectRoundMatches_append_stable hint
    rw [generate_next_knockout_round, if_neg h0, hstable, if_neg h1]
    have h2ne : ¬ ((selectRoundMatches allM (stripStr name)).any
        (fun m => decide (m.status = MStatus.scheduled ∨ m.status = MStatus.live))
        = true) := by
      rw [h2]
      simp
    rw [if_neg h2ne]
    have h3ne : ¬ ((extractWinners (selectRoundMatches allM (stripStr name))).length < 2) :=
      by omega
    rw [if_neg h3ne]
    obtain ⟨c0, hc0⟩ := List.exists_mem_of_ne_nil _ hCne
    have hc0f := hCfields c0 hc0
    have hchk : nextRoundExistsCheck (allM ++ C)
        (get_round_name (extractWinners (selectRoundMatches allM (stripStr name))).length)
        = true := by
      rw [nextRoundExistsCheck_eq]
      have hmemng : c0 ∈ nonGroupMatches (allM ++ C) := by
        rw [nonGroupMatches, List.mem_filter]
        refine ⟨List.mem_append_right _ hc0, ?_⟩
        rw [hc0f.2, get_round_name_not_group]
        rfl
      have hexact : iexact c0.pitch (get_round_name
          (extractWinners (selectRoundMatches allM (stripStr name))).length) = true := by
        rw [hc0f.2]
        unfold iexact
        simp
      have hmemE : c0 ∈ (nonGroupMatches (allM ++ C)).filter
          (fun m => iexact m.pitch (get_round_name
            (extractWinners (selectRoundMatches allM (stripStr name))).length)) :=
        List.mem_filter.mpr ⟨hmemng, hexact⟩
      rw [if_pos (List.length_pos_of_mem hmemE)]
    rw [if_pos hchk]

/-- Witness for no_double_round_creation: two decided semi-finals advance to
exactly one Final, and a second trigger on the resulting state creates
nothing. -/
theorem no_double_round_creation_witness :
    generate_next_knockout_round
      [KMatch.mk (some 1) (some 2) (some 3) (some 1) none none MStatus.finished
        (strL "Semi-Finals") 0,
       KMatch.mk (some 3) (some 4) (some 2) (some 2) (some 5) (some 4) MStatus.finished
        (strL "Semi-Finals") 0]
      (strL "Semi-Finals") =
      some [KMatch.mk (some 1) (some 3) none none none none MStatus.scheduled
        (strL "Final") 1] ∧
    generate_next_knockout_round
      ([KMatch.mk (some 1) (some 2) (some 3) (some 1) none none MStatus.finished
        (strL "Semi-Finals") 0,
        KMatch.mk (some 3) (some 4) (some 2) (some 2) (some 5) (some 4) MStatus.finished
        (strL "Semi-Finals") 0] ++
       [KMatch.mk (some 1) (some 3) none none none none MStatus.scheduled
        (strL "Final") 1])
      (strL "Semi-Finals") = none :=
  ⟨by decide,
   no_double_round_creation.2.2
     [KMatch.mk (some 1) (some 2) (some 3) (some 1) none none MStatus.finished
       (strL "Semi-Finals") 0,
      KMatch.mk (some 3) (some 4) (some 2) (some 2) (some 5) (some 4) MStatus.finished
       (strL "Semi-Finals") 0]
     (strL "Semi-Finals")
     [KMatch.mk (some 1) (some 3) none none none none MStatus.scheduled
       (strL "Final") 1]
     (by decide)⟩

/-! #### The creation pairing -/

theorem filterMap_eq_map_of_some {α β : Type} (f : α → Option β) (g : α → β) :
    ∀ l : List α, (∀ a ∈ l, f a = some (g a)) → l.filterMap f = l.map g := by
  intro l
  induction l with
  | nil => intro _; rfl
  | cons a l ih =>
    intro h
    rw [List.filterMap_cons, h a (List.mem_cons_self _ _), List.map_cons,
      ih (fun b hb => h b (List.mem_cons_of_mem _ hb))]

theorem createNextMatches_eq_map (w : List Nat) (n : List Char) (d : Int) :
    createNextMatches w n d = (List.range (w.length / 2)).map
      (fun i => KMatch.mk w[2 * i]? w[2 * i + 1]? none none none none
        MStatus.scheduled n d) := by
  unfold createNextMatches
  apply filterMap_eq_map_of_some
  intro i hi
  rw [List.mem_range] at hi
  have e1 : w[2 * i]? = some w[2 * i] := List.getElem?_eq_getElem (by omega)
  have e2 : w[2 * i + 1]? = some w[2 * i + 1] := List.getElem?_eq_getElem (by omega)
  rw [e1, e2]

/-- Claim C10: a successful advancement with w winners creates exactly
floor(w/2) matches, pairing winners[2i] against winners[2i+1] in extraction
order; with an odd winner count and distinct winners, the last winner is in
none of the created matches. -/
theorem next_round_pairing (allM : List KMatch) (name : List Char) (C : List KMatch)
    (h : generate_next_knockout_round allM name = some C) :
    C.length = (extractWinners (selectRoundMatches allM (stripStr name))).length / 2 ∧
    (∀ i (hi : i < C.length),
      (C.get ⟨i, hi⟩).home =
        (extractWinners (selectRoundMatches allM (stripStr name)))[2 * i]? ∧
      (C.get ⟨i, hi⟩).away =
        (extractWinners (selectRoundMatches allM (stripStr name)))[2 * i + 1]?) ∧
    ((extractWinners (selectRoundMatches allM (stripStr name))).length % 2 = 1 →
      (extractWinners (selectRoundMatches allM (stripStr name))).Nodup →
      ∀ lw, getElem? (extractWinners (selectRoundMatches allM (stripStr name)))
          ((extractWinners (selectRoundMatches allM (stripStr name))).length - 1)
          = some lw →
        ∀ m ∈ C, m.home ≠ some lw ∧ m.away ≠ some lw) := by
  obtain ⟨h0, h1, h2, h3, h4, d, hmk, hC⟩ := generate_next_some_inv h
  have hmap := createNextMatches_eq_map
    (extractWinners (selectRoundMatches allM (stripStr name)))
    (get_round_name (extractWinners (selectRoundMatches allM (stripStr name))).length)
    (d + 1)
  rw [hmap] at hC
  refine ⟨?_, ?_, ?_⟩
  · rw [hC, List.length_map, List.length_range]
  · intro i hi
    have hi2 : i < (extractWinners (selectRoundMatches allM (stripStr name))).length / 2 := by
      rw [hC, List.length_map, List.length_range] at hi
      exact hi
    have hget : C.get ⟨i, hi⟩ =
        KMatch.mk (extractWinners (selectRoundMatches allM (stripStr name)))[2 * i]?
          (extractWinners (selectRoundMatches allM (stripStr name)))[2 * i + 1]?
          none none none none MStatus.scheduled
          (get_round_name (extractWinners (selectRoundMatches allM (stripStr name))).length)
          (d + 1) := by
      have := List.get_of_eq hC ⟨i, hi⟩
      rw [this]
      simp [List.get_eq_getElem]
    rw [hget]
    exact ⟨rfl, rfl⟩
  · intro hodd hnd lw hlw m hm
    rw [hC] at hm
    obtain ⟨i, hir, rfl⟩ := List.mem_map.mp hm
    rw [List.mem_range] at hir
    have hw := h3
    have hlen1 : (extractWinners (selectRoundMatches allM (stripStr name))).length - 1 <
        (extractWinners (selectRoundMatches allM (stripStr name))).length := by omega
    have hlwe : getElem? (extractWinners (selectRoundMatches allM (stripStr name)))
        ((extractWinners (selectRoundMatches allM (stripStr name))).length - 1) =
        some ((extractWinners (selectRoundMatches allM (stripStr name))).get
          ⟨(extractWinners (selectRoundMatches allM (stripStr name))).length - 1,
           hlen1⟩) :=
      List.getElem?_eq_getElem hlen1
    rw [hlwe, Option.some_inj] at hlw
    have hidx1 : 2 * i < (extractWinners (selectRoundMatches allM (stripStr name))).length :=
      by omega
    have hidx2 : 2 * i + 1 <
        (extractWinners (selectRoundMatches allM (stripStr name))).length := by omega
    constructor
    · intro hhome
      have he : getElem? (extractWinners (selectRoundMatches allM (stripStr name)))
          (2 * i) =
          some ((extractWinners (selectRoundMatches allM (stripStr name))).get
            ⟨2 * i, hidx1⟩) :=
        List.getElem?_eq_getElem hidx1
      rw [he, Option.some_inj] at hhome
      rw [← hlw] at hhome
      have hinj := (List.Nodup.get_inj_iff hnd).mp hhome
      have hval := congrArg Fin.val hinj
      simp only [] at hval
      omega
    · intro haway
      have he : getElem? (extractWinners (selectRoundMatches allM (stripStr name)))
          (2 * i + 1) =
          some ((extractWinners (selectRoundMatches allM (stripStr name))).get
            ⟨2 * i + 1, hidx2⟩) :=
        List.getElem?_eq_getElem hidx2
      rw [he, Option.some_inj] at haway
      rw [← hlw] at haway
      have hinj := (List.Nodup.get_inj_iff hnd).mp haway
      have hval := congrArg Fin.val hinj
      simp only [] at hval
      omega

/-- Witness for next_round_pairing: three decisive semi-finals give three
winners; one Final match is created pairing the first two, and the third
winner is dropped. -/
theorem next_round_pairing_witness :
    generate_next_knockout_round
      [KMatch.mk (some 1) (some 2) (some 2) (some 0) none none MStatus.finished
        (strL "Semi-Finals") 0,
       KMatch.mk (some 3) (some 4) (some 1) (some 0) none none MStatus.finished
        (strL "Semi-Finals") 0,
       KMatch.mk (some 5) (some 6) (some 3) (some 1) none none MStatus.finished
        (strL "Semi-Finals") 0]
      (strL "Semi-Finals") =
      some [KMatch.mk (some 1) (some 3) none none none none MStatus.scheduled
        (strL "Final") 1] ∧
    ([KMatch.mk (some 1) (some 3) none none none none MStatus.scheduled
        (strL "Final") 1].length =
      (extractWinners (selectRoundMatches
        [KMatch.mk (some 1) (some 2) (some 2) (some 0) none none MStatus.finished
          (strL "Semi-Finals") 0,
         KMatch.mk (some 3) (some 4) (some 1) (some 0) none none MStatus.finished
          (strL "Semi-Finals") 0,
         KMatch.mk (some 5) (some 6) (some 3) (some 1) none none MStatus.finished
          (strL "Semi-Finals") 0]
        (stripStr (strL "Semi-Finals")))).length / 2 ∧
     (∀ i (hi : i < [KMatch.mk (some 1) (some 3) none none none none MStatus.scheduled
          (strL "Final") 1].length),
       ([KMatch.mk (some 1) (some 3) none none none none MStatus.scheduled
          (strL "Final") 1].get ⟨i, hi⟩).home =
         (extractWinners (selectRoundMatches
           [KMatch.mk (some 1) (some 2) (some 2) (some 0) none none MStatus.finished
             (strL "Semi-Finals") 0,
            KMatch.mk (some 3) (some 4) (some 1) (some 0) none none MStatus.finished
             (strL "Semi-Finals") 0,
            KMatch.mk (some 5) (some 6) (some 3) (some 1) none none MStatus.finished
             (strL "Semi-Finals") 0]
           (stripStr (strL "Semi-Finals"))))[2 * i]? ∧
       ([KMatch.mk (some 1) (some 3) none none none none MStatus.scheduled
          (strL "Final") 1].get ⟨i, hi⟩).away =
         (extractWinners (selectRoundMatches
           [KMatch.mk (some 1) (some 2) (some 2) (some 0) none none MStatus.finished
             (strL "Semi-Finals") 0,
            KMatch.mk (some 3) (some 4) (some 1) (some 0) none none MStatus.finished
             (strL "Semi-Finals") 0,
            KMatch.mk (some 5) (some 6) (some 3) (some 1) none none MStatus.finished
             (strL "Semi-Finals") 0]
           (stripStr (strL "Semi-Finals"))))[2 * i + 1]?) ∧
     ((extractWinners (selectRoundMatches
         [KMatch.mk (some 1) (some 2) (some 2) (some 0) none none MStatus.finished
           (strL "Semi-Finals") 0,
          KMatch.mk (some 3) (some 4) (some 1) (some 0) none none MStatus.finished
           (strL "Semi-Finals") 0,
          KMatch.mk (some 5) (some 6) (some 3) (some 1) none none MStatus.finished
           (strL "Semi-Finals") 0]
         (stripStr (strL "Semi-Finals")))).length % 2 = 1 →
       (extractWinners (selectRoundMatches
         [KMatch.mk (some 1) (some 2) (some 2) (some 0) none none MStatus.finished
           (strL "Semi-Finals") 0,
          KMatch.mk (some 3) (some 4) (some 1) (some 0) none none MStatus.finished
           (strL "Semi-Finals") 0,
          KMatch.mk (some 5) (some 6) (some 3) (some 1) none none MStatus.finished
           (strL "Semi-Finals") 0]
         (stripStr (strL "Semi-Finals")))).Nodup →
       ∀ lw, getElem? (extractWinners (selectRoundMatches
           [KMatch.mk (some 1) (some 2) (some 2) (some 0) none none MStatus.finished
             (strL "Semi-Finals") 0,
            KMatch.mk (some 3) (some 4) (some 1) (some 0) none none MStatus.finished
             (strL "Semi-Finals") 0,
            KMatch.mk (some 5) (some 6) (some 3) (some 1) none none MStatus.finished
             (strL "Semi-Finals") 0]
           (stripStr (strL "Semi-Finals"))))
           ((extractWinners (selectRoundMatches
             [KMatch.mk (some 1) (some 2) (some 2) (some 0) none none MStatus.finished
               (strL "Semi-Finals") 0,
              KMatch.mk (some 3) (some 4) (some 1) (some 0) none none MStatus.finished
               (strL "Semi-Finals") 0,
              KMatch.mk (some 5) (some 6) (some 3) (some 1) none none MStatus.finished
               (strL "Semi-Finals") 0]
             (stripStr (strL "Semi-Finals")))).length - 1)
           = some lw →
         ∀ m ∈ [KMatch.mk (some 1) (some 3) none none none none MStatus.scheduled
             (strL "Final") 1], m.home ≠ some lw ∧ m.away ≠ some lw)) :=
  ⟨by decide,
   next_round_pairing
     [KMatch.mk (some 1) (some 2) (some 2) (some 0) none none MStatus.finished
       (strL "Semi-Finals") 0,
      KMatch.mk (some 3) (some 4) (some 1) (some 0) none none MStatus.finished
       (strL "Semi-Finals") 0,
      KMatch.mk (some 5) (some 6) (some 3) (some 1) none none MStatus.finished
       (strL "Semi-Finals") 0]
     (strL "Semi-Finals")
     [KMatch.mk (some 1) (some 3) none none none none MStatus.scheduled
       (strL "Final") 1]
     (by decide)⟩

/-! ### Tournament completion (simulate_match tail and set_score tail) -/

/-- Claim C4: a finished match whose round label resolves exactly to "Final"
(case-insensitive, trimmed) completes the tournament; as a fallback a
finished match completes the tournament when every match is finished; a
label not resolving to Final leaves the status untouched; and both rules
are no-ops on an already-completed tournament. -/
theorem tournament_completion_rules :
    (∀ (m : KMatch) (t : TStatus), m.status = MStatus.finished →
      lowerStr (stripStr m.pitch) = strL "final" →
      (markCompletedIfFinal m t).1 = TStatus.completed) ∧
    (∀ (m : KMatch) (t : TStatus),
      ¬ (lowerStr (stripStr m.pitch) = strL "final") ∨ m.status ≠ MStatus.finished →
      markCompletedIfFinal m t = (t, false)) ∧
    (∀ (allM : List KMatch) (m : KMatch) (t : TStatus), m.status = MStatus.finished →
      m ∈ allM →
      (allM.filter (fun x => decide (x.status = MStatus.finished))).length = allM.length →
      (markCompletedIfAllFinished allM m t).1 = TStatus.completed) ∧
    (∀ (allM : List KMatch) (m : KMatch),
      markCompletedIfFinal m TStatus.completed = (TStatus.completed, false) ∧
      markCompletedIfAllFinished allM m TStatus.completed = (TStatus.completed, false)) := by
  have hbridge : ∀ p : List Char, lowerStr (stripStr p) = strL "final" →
      (containsSub (lowerStr p) (strL "final") &&
        decide (stripStr (lowerStr p) = strL "final")) = true := by
    intro p h
    rw [Bool.and_eq_true]
    constructor
    · have h1 := icontains_final_of_stripLower h
      unfold icontains at h1
      have hlow : lowerStr (strL "Final") = strL "final" := by decide
      rw [hlow] at h1
      exact h1
    · rw [decide_eq_true_eq, stripStr_lowerStr_comm]
      exact h
  refine ⟨?_, ?_, ?_, ?_⟩
  · intro m t hst hfin
    rw [markCompletedIfFinal]
    rw [if_pos ⟨hbridge m.pitch hfin, hst⟩]
    by_cases ht : t = TStatus.completed
    · rw [if_neg (fun hne => hne ht)]
      exact ht
    · rw [if_pos ht]
  · intro m t hcond
    rw [markCompletedIfFinal]
    rw [if_neg ?hc]
    case hc =>
      rintro ⟨hb, hst⟩
      rcases hcond with hnf | hns
      · rw [Bool.and_eq_true, decide_eq_true_eq, stripStr_lowerStr_comm] at hb
        exact hnf hb.2
      · exact hns hst
  · intro allM m t hst hm hall
    rw [markCompletedIfAllFinished, if_pos hst,
      if_pos ⟨List.length_pos_of_mem hm, hall⟩]
    by_cases ht : t = TStatus.completed
    · rw [if_neg (fun hne => hne ht)]
      exact ht
    · rw [if_pos ht]
  · intro allM m
    constructor
    · rw [markCompletedIfFinal]
      by_cases hcond : (containsSub (lowerStr m.pitch) (strL "final") &&
          decide (stripStr (lowerStr m.pitch) = strL "final")) = true ∧
          m.status = MStatus.finished
      · rw [if_pos hcond, if_neg (fun hne => hne rfl)]
      · rw [if_neg hcond]
    · rw [markCompletedIfAllFinished]
      by_cases h1 : m.status = MStatus.finished
      · rw [if_pos h1]
        by_cases h2 : allM.length > 0 ∧
            (allM.filter (fun x => decide (x.status = MStatus.finished))).length =
              allM.length
        · rw [if_pos h2, if_neg (fun hne => hne rfl)]
        · rw [if_neg h2]
      · rw [if_neg h1]

/-- Witness for tournament_completion_rules: a finished match labelled
"Final" completes an open tournament. -/
theorem tournament_completion_rules_witness :
    (markCompletedIfFinal
      (KMatch.mk (some 1) (some 3) (some 2) (some 1) none none MStatus.finished
        (strL "Final") 1)
      TStatus.openFor).1 = TStatus.completed :=
  tournament_completion_rules.1
    (KMatch.mk (some 1) (some 3) (some 2) (some 1) none none MStatus.finished
      (strL "Final") 1)
    TStatus.openFor (by decide) (by decide)

/-! ### tournament_formats.generate_knockout_fixtures -/

/-- Claim C9 counterexample: zero teams is not a power of two, yet the
function returns an empty fixture list instead of reporting a configuration
error, so the claim that every non-power-of-two team count yields an error
is false. -/
theorem knockout_fixtures_counterexample :
    is_power_of_2 ([] : List Nat).length = false ∧
    generate_knockout_fixtures [] 0 = Except.ok [] :=
  ⟨by decide, rfl⟩

/-- Claim C9 (amended): team counts below 2 return an empty list without
error; every count of at least 2 that is not a power of two is reported as a
configuration error; and a power-of-two count n of at least 2 yields exactly
n/2 matches pairing adjacent input positions (0,1), (2,3), ..., each
labelled "Round 1" and dated on the start date. -/
theorem knockout_fixtures_spec (teams : List Nat) (d : Int) :
    (teams.length < 2 → generate_knockout_fixtures teams d = Except.ok []) ∧
    (2 ≤ teams.length → is_power_of_2 teams.length = false →
      generate_knockout_fixtures teams d =
        Except.error (strL "Knockout tournament must have a power-of-2 number of teams.")) ∧
    (2 ≤ teams.length → is_power_of_2 teams.length = true →
      ∃ ms, generate_knockout_fixtures teams d = Except.ok ms ∧
        ms.length = teams.length / 2 ∧
        ∀ i (hi : i < ms.length),
          getElem? teams (i * 2) = some (ms.get ⟨i, hi⟩).home ∧
          getElem? teams (i * 2 + 1) = some (ms.get ⟨i, hi⟩).away ∧
          (ms.get ⟨i, hi⟩).pitch = strL "Round 1" ∧
          (ms.get ⟨i, hi⟩).kickoff = d) := by
  refine ⟨?_, ?_, ?_⟩
  · intro h
    rw [generate_knockout_fixtures, if_pos h]
  · intro h hp
    rw [generate_knockout_fixtures, if_neg (by omega), if_pos ?hc]
    case hc =>
      rw [hp]
      simp
  · intro h hp
    rw [generate_knockout_fixtures, if_neg (by omega), if_neg ?hc]
    case hc =>
      rw [hp]
      simp
    have hlen : ((List.range (teams.length / 2)).map (fun i =>
        FMatch.mk (teams.getD (i * 2) 0) (teams.getD (i * 2 + 1) 0) none none
          MStatus.scheduled (strL "Round 1") d)).length = teams.length / 2 := by
      rw [List.length_map, List.length_range]
    rw [if_neg (by omega)]
    refine ⟨_, rfl, hlen, ?_⟩
    intro i hi
    rw [hlen] at hi
    have hget : ((List.range (teams.length / 2)).map (fun i =>
        FMatch.mk (teams.getD (i * 2) 0) (teams.getD (i * 2 + 1) 0) none none
          MStatus.scheduled (strL "Round 1") d)).get ⟨i, by rw [hlen]; exact hi⟩ =
        FMatch.mk (teams.getD (i * 2) 0) (teams.getD (i * 2 + 1) 0) none none
          MStatus.scheduled (strL "Round 1") d := by
      rw [List.get_eq_getElem, List.getElem_map, List.getElem_range]
    rw [hget]
    have hb1 : i * 2 < teams.length := by omega
    have hb2 : i * 2 + 1 < teams.length := by omega
    refine ⟨?_, ?_, rfl, rfl⟩
    · rw [List.getElem?_eq_getElem hb1]
      have := List.getD_eq_getElem?_getD teams (i * 2) 0
      rw [this, List.getElem?_eq_getElem hb1]
      rfl
    · rw [List.getElem?_eq_getElem hb2]
      have := List.getD_eq_getElem?_getD teams (i * 2 + 1) 0
      rw [this, List.getElem?_eq_getElem hb2]
      rfl

/-- Witness for knockout_fixtures_spec: four teams give two Round 1 matches
pairing (0,1) and (2,3). -/
theorem knockout_fixtures_spec_witness :
    2 ≤ ([10, 20, 30, 40] : List Nat).length ∧
    ∃ ms, generate_knockout_fixtures [10, 20, 30, 40] 0 = Except.ok ms ∧
      ms.length = ([10, 20, 30, 40] : List Nat).length / 2 ∧
      ∀ i (hi : i < ms.length),
        getElem? ([10, 20, 30, 40] : List Nat) (i * 2) = some (ms.get ⟨i, hi⟩).home ∧
        getElem? ([10, 20, 30, 40] : List Nat) (i * 2 + 1) = some (ms.get ⟨i, hi⟩).away ∧
        (ms.get ⟨i, hi⟩).pitch = strL "Round 1" ∧
        (ms.get ⟨i, hi⟩).kickoff = 0 :=
  ⟨by decide, (knockout_fixtures_spec [10, 20, 30, 40] 0).2.2 (by decide) (by decide)⟩

/-! ### tournament_formats.generate_league_fixtures -/

/-- Claim C6: the fixture count passes the n(n-1)/2 validation for four
teams, yet the even-branch rotation keeps rotating[0] in place, so the pair
(0,1) is scheduled three times and the pair (0,2) never: the claimed
every-pair-exactly-once property fails on the code. -/
theorem league_fixtures_rotation_bug :
    (generate_league_fixtures [0, 1, 2, 3] 0).length = 6 ∧
    ((generate_league_fixtures [0, 1, 2, 3] 0).filter
        (fun m => decide (sortPair m.home m.away = (0, 1)))).length = 3 ∧
    ((generate_league_fixtures [0, 1, 2, 3] 0).filter
        (fun m => decide (sortPair m.home m.away = (0, 2)))).length = 0 := by
  refine ⟨?_, ?_, ?_⟩ <;> decide

/-! ### tournament_formats.calculate_group_standings -/

theorem rowFor_map (t : Nat) (f : Row → Row) (hf : ∀ r, (f r).team = r.team) :
    ∀ rows : List Row, rowFor t (rows.map f) = (rowFor t rows).map f := by
  intro rows
  induction rows with
  | nil => rfl
  | cons r rest ih =>
    by_cases hrt : r.team = t
    · have h1 : rowFor t ((r :: rest).map f) = some (f r) := by
        simp only [List.map_cons, rowFor]
        rw [List.find?_cons_of_pos]
        simp [hf, hrt]
      have h2 : rowFor t (r :: rest) = some r := by
        simp only [rowFor]
        rw [List.find?_cons_of_pos]
        simp [hrt]
      rw [h1, h2]; rfl
    · have h1 : rowFor t ((r :: rest).map f) = rowFor t (rest.map f) := by
        simp only [List.map_cons, rowFor]
        rw [List.find?_cons_of_neg]
        simp [hf, hrt]
      have h2 : rowFor t (r :: rest) = rowFor t rest := by
        simp only [rowFor]
        rw [List.find?_cons_of_neg]
        simp [hrt]
      rw [h1, h2, ih]

theorem bumpRow_rowFor (t s : Nat) (g : Row → Row) (hg : ∀ r, (g r).team = r.team)
    (rows : List Row) :
    rowFor t (bumpRow s g rows) =
      if t = s then (rowFor t rows).map g else rowFor t rows := by
  have hf : ∀ r : Row, ((if r.team = s then g r else r) : Row).team = r.team := by
    intro r; by_cases h : r.team = s <;> simp [h, hg]
  have hmap := rowFor_map t (fun r => if r.team = s then g r else r) hf rows
  rw [bumpRow, hmap]
  cases hrow : rowFor t rows with
  | none => by_cases hts : t = s <;> simp [hts]
  | some r =>
    have hteam : r.team = t := by
      rw [rowFor] at hrow
      have := List.find?_some hrow
      simpa using this
    by_cases hts : t = s
    · simp [Option.map, hteam, hts]
    · simp [Option.map, hteam, hts]

theorem rowFor_addPlayed (t : Nat) (rows : List Row) (m : FMatch) :
    rowFor t (addPlayed rows m) = (rowFor t rows).map (playedEff t m) := by
  rw [addPlayed,
      bumpRow_rowFor t m.away (fun r => { r with played := r.played + 1 })
        (fun r => rfl),
      bumpRow_rowFor t m.home (fun r => { r with played := r.played + 1 })
        (fun r => rfl)]
  by_cases h1 : t = m.home
  · by_cases h2 : t = m.away
    · rw [if_pos h2, if_pos h1]
      cases rowFor t rows with
      | none => rfl
      | some r => cases r; simp [playedEff, playedC, if_pos h1, if_pos h2]
    · rw [if_neg h2, if_pos h1]
      cases rowFor t rows with
      | none => rfl
      | some r => cases r; simp [playedEff, playedC, if_pos h1, if_neg h2]
  · by_cases h2 : t = m.away
    · rw [if_pos h2, if_neg h1]
      cases rowFor t rows with
      | none => rfl
      | some r => cases r; simp [playedEff, playedC, if_neg h1, if_pos h2]
    · rw [if_neg h2, if_neg h1]
      cases rowFor t rows with
      | none => rfl
      | some r => cases r; simp [playedEff, playedC, if_neg h1, if_neg h2]

theorem rowFor_addStats (t : Nat) (rows : List Row) (m : FMatch) :
    rowFor t (addStats rows m) = (rowFor t rows).map (statsEff t m) := by
  simp only [addStats]
  by_cases hgt : m.homeScore.getD 0 > m.awayScore.getD 0
  · rw [if_pos hgt,
        bumpRow_rowFor t m.away (fun r => { r with losses := r.losses + 1 }) (fun r => rfl),
        bumpRow_rowFor t m.home (fun r => { r with wins := r.wins + 1, points := r.points + 3 }) (fun r => rfl),
        bumpRow_rowFor t m.away (fun r => { r with goalsFor := r.goalsFor + m.awayScore.getD 0, goalsAgainst := r.goalsAgainst + m.homeScore.getD 0 }) (fun r => rfl),
        bumpRow_rowFor t m.home (fun r => { r with goalsFor := r.goalsFor + m.homeScore.getD 0, goalsAgainst := r.goalsAgainst + m.awayScore.getD 0 }) (fun r => rfl)]
    have hne : ¬(m.homeScore.getD 0 = m.awayScore.getD 0) := by omega
    have hng : ¬(m.awayScore.getD 0 > m.homeScore.getD 0) := by omega
    by_cases h1 : t = m.home
    · by_cases h2 : t = m.away
      · simp only [if_pos h1, if_pos h2]
        cases rowFor t rows with
        | none => rfl
        | some r =>
          cases r
          have h12 : m.home = m.away := by rw [← h1]; exact h2
          simp [statsEff, winC, drawC, lossC, gfC, gaC, ptC, h1, h12, hgt, hne, hng]
          all_goals omega
      · simp only [if_pos h1, if_neg h2]
        cases rowFor t rows with
        | none => rfl
        | some r =>
          cases r
          have h2b : ¬(m.home = m.away) := by rw [← h1]; exact h2
          simp [statsEff, winC, drawC, lossC, gfC, gaC, ptC, h1, h2b, hgt, hne, hng]
          all_goals omega
    · by_cases h2 : t = m.away
      · simp only [if_neg h1, if_pos h2]
        cases rowFor t rows with
        | none => rfl
        | some r =>
          cases r
          have h1b : ¬(m.away = m.home) := by rw [← h2]; exact h1
          simp [statsEff, winC, drawC, lossC, gfC, gaC, ptC, h2, h1b, hgt, hne, hng]
          all_goals omega
      · simp only [if_neg h1, if_neg h2]
        cases rowFor t rows with
        | none => rfl
        | some r =>
          cases r
          simp [statsEff, winC, drawC, lossC, gfC, gaC, ptC, h1, h2, hgt, hne, hng]
          all_goals omega
  · rw [if_neg hgt]
    by_cases hlt : m.awayScore.getD 0 > m.homeScore.getD 0
    · rw [if_pos hlt,
          bumpRow_rowFor t m.home (fun r => { r with losses := r.losses + 1 }) (fun r => rfl),
          bumpRow_rowFor t m.away (fun r => { r with wins := r.wins + 1, points := r.points + 3 }) (fun r => rfl),
          bumpRow_rowFor t m.away (fun r => { r with goalsFor := r.goalsFor + m.awayScore.getD 0, goalsAgainst := r.goalsAgainst + m.homeScore.getD 0 }) (fun r => rfl),
          bumpRow_rowFor t m.home (fun r => { r with goalsFor := r.goalsFor + m.homeScore.getD 0, goalsAgainst := r.goalsAgainst + m.awayScore.getD 0 }) (fun r => rfl)]
      have hne : ¬(m.homeScore.getD 0 = m.awayScore.getD 0) := by omega
      by_cases h1 : t = m.home
      · by_cases h2 : t = m.away
        · simp only [if_pos h1, if_pos h2]
          cases rowFor t rows with
          | none => rfl
          | some r =>
            cases r
            have h12 : m.home = m.away := by rw [← h1]; exact h2
            simp [statsEff, winC, drawC, lossC, gfC, gaC, ptC, h1, h12, hgt, hne, hlt]
            all_goals omega
        · simp only [if_pos h1, if_neg h2]
          cases rowFor t rows with
          | none => rfl
          | some r =>
            cases r
            have h2b : ¬(m.home = m.away) := by rw [← h1]; exact h2
            simp [statsEff, winC, drawC, lossC, gfC, gaC, ptC, h1, h2b, hgt, hne, hlt]
            all_goals omega
      · by_cases h2 : t = m.away
        · simp only [if_neg h1, if_pos h2]
          cases rowFor t rows with
          | none => rfl
          | some r =>
            cases r
            have h1b : ¬(m.away = m.home) := by rw [← h2]; exact h1
            simp [statsEff, winC, drawC, lossC, gfC, gaC, ptC, h2, h1b, hgt, hne, hlt]
            all_goals omega
        · simp only [if_neg h1, if_neg h2]
          cases rowFor t rows with
          | none => rfl
          | some r =>
            cases r
            simp [statsEff, winC, drawC, lossC, gfC, gaC, ptC, h1, h2, hgt, hne, hlt]
            all_goals omega
    · rw [if_neg hlt,
          bumpRow_rowFor t m.away (fun r => { r with draws := r.draws + 1, points := r.points + 1 }) (fun r => rfl),
          bumpRow_rowFor t m.home (fun r => { r with draws := r.draws + 1, points := r.points + 1 }) (fun r => rfl),
          bumpRow_rowFor t m.away (fun r => { r with goalsFor := r.goalsFor + m.awayScore.getD 0, goalsAgainst := r.goalsAgainst + m.homeScore.getD 0 }) (fun r => rfl),
          bumpRow_rowFor t m.home (fun r => { r with goalsFor := r.goalsFor + m.homeScore.getD 0, goalsAgainst := r.goalsAgainst + m.awayScore.getD 0 }) (fun r => rfl)]
      have heq : m.homeScore.getD 0 = m.awayScore.getD 0 := by omega
      by_cases h1 : t = m.home
      · by_cases h2 : t = m.away
        · simp only [if_pos h1, if_pos h2]
          cases rowFor t rows with
          | none => rfl
          | some r =>
            cases r
            have h12 : m.home = m.away := by rw [← h1]; exact h2
            simp [statsEff, winC, drawC, lossC, gfC, gaC, ptC, h1, h12, hgt, hlt, heq]
            all_goals omega
        · simp only [if_pos h1, if_neg h2]
          cases rowFor t rows with
          | none => rfl
          | some r =>
            cases r
            have h2b : ¬(m.home = m.away) := by rw [← h1]; exact h2
            simp [statsEff, winC, drawC, lossC, gfC, gaC, ptC, h1, h2b, hgt, hlt, heq]
            all_goals omega
      · by_cases h2 : t = m.away
        · simp only [if_neg h1, if_pos h2]
          cases rowFor t rows with
          | none => rfl
          | some r =>
            cases r
            have h1b : ¬(m.away = m.home) := by rw [← h2]; exact h1
            simp [statsEff, winC, drawC, lossC, gfC, gaC, ptC, h2, h1b, hgt, hlt, heq]
            all_goals omega
        · simp only [if_neg h1, if_neg h2]
          cases rowFor t rows with
          | none => rfl
          | some r =>
            cases r
            simp [statsEff, winC, drawC, lossC, gfC, gaC, ptC, h1, h2, hgt, hlt, heq]
            all_goals omega

theorem rowFor_foldl {α : Type} (t : Nat) (step : List Row → α → List Row)
    (eff : α → Row → Row)
    (hstep : ∀ rows m, rowFor t (step rows m) = (rowFor t rows).map (eff m)) :
    ∀ (ms : List α) (rows : List Row),
      rowFor t (ms.foldl step rows) =
        (rowFor t rows).map (fun r => ms.foldl (fun r m => eff m r) r) := by
  intro ms
  induction ms with
  | nil =>
    intro rows
    rw [List.foldl_nil]
    cases rowFor t rows <;> rfl
  | cons m ms ih =>
    intro rows
    rw [List.foldl_cons, ih, hstep]
    cases rowFor t rows <;> rfl

theorem foldl_playedEff (t : Nat) :
    ∀ (ms : List FMatch) (r : Row),
      ms.foldl (fun r m => playedEff t m r) r =
        { r with played := r.played + (ms.map (playedC t)).sum } := by
  intro ms
  induction ms with
  | nil => intro r; cases r; simp
  | cons m ms ih =>
    intro r
    rw [List.foldl_cons, ih]
    cases r
    simp [playedEff]
    all_goals omega

theorem foldl_statsEff (t : Nat) :
    ∀ (ms : List FMatch) (r : Row),
      ms.foldl (fun r m => statsEff t m r) r =
        { r with
          wins := r.wins + (ms.map (winC t)).sum,
          draws := r.draws + (ms.map (drawC t)).sum,
          losses := r.losses + (ms.map (lossC t)).sum,
          goalsFor := r.goalsFor + (ms.map (gfC t)).sum,
          goalsAgainst := r.goalsAgainst + (ms.map (gaC t)).sum,
          points := r.points + (ms.map (ptC t)).sum } := by
  intro ms
  induction ms with
  | nil => intro r; cases r; simp
  | cons m ms ih =>
    intro r
    rw [List.foldl_cons, ih]
    cases r
    simp [statsEff]
    all_goals omega

theorem rowFor_initRows (t : Nat) :
    ∀ teams : List Nat, t ∈ teams → rowFor t (teams.map initRow) = some (initRow t) := by
  intro teams
  induction teams with
  | nil => intro h; cases h
  | cons s rest ih =>
    intro h
    rcases List.mem_cons.mp h with rfl | hmem
    · simp only [List.map_cons, rowFor]
      rw [List.find?_cons_of_pos]
      simp [initRow]
    · by_cases hst : s = t
      · subst hst
        simp only [List.map_cons, rowFor]
        rw [List.find?_cons_of_pos]
        simp [initRow]
      · simp only [List.map_cons, rowFor]
        rw [List.find?_cons_of_neg]
        · exact ih hmem
        · simp [initRow, hst]

theorem map_team_bumpRow (s : Nat) (f : Row → Row) (hf : ∀ r, (f r).team = r.team)
    (rows : List Row) : (bumpRow s f rows).map Row.team = rows.map Row.team := by
  rw [bumpRow, List.map_map]
  apply List.map_congr_left
  intro r _
  by_cases h : r.team = s <;> simp [h, hf]

theorem map_team_addPlayed (rows : List Row) (m : FMatch) :
    (addPlayed rows m).map Row.team = rows.map Row.team := by
  rw [addPlayed,
      map_team_bumpRow m.away (fun r => { r with played := r.played + 1 })
        (fun r => rfl),
      map_team_bumpRow m.home (fun r => { r with played := r.played + 1 })
        (fun r => rfl)]

theorem map_team_addStats (rows : List Row) (m : FMatch) :
    (addStats rows m).map Row.team = rows.map Row.team := by
  simp only [addStats]
  by_cases hgt : m.homeScore.getD 0 > m.awayScore.getD 0
  · rw [if_pos hgt,
        map_team_bumpRow m.away (fun r => { r with losses := r.losses + 1 }) (fun r => rfl),
        map_team_bumpRow m.home (fun r => { r with wins := r.wins + 1, points := r.points + 3 }) (fun r => rfl),
        map_team_bumpRow m.away (fun r => { r with goalsFor := r.goalsFor + m.awayScore.getD 0, goalsAgainst := r.goalsAgainst + m.homeScore.getD 0 }) (fun r => rfl),
        map_team_bumpRow m.home (fun r => { r with goalsFor := r.goalsFor + m.homeScore.getD 0, goalsAgainst := r.goalsAgainst + m.awayScore.getD 0 }) (fun r => rfl)]
  · rw [if_neg hgt]
    by_cases hlt : m.awayScore.getD 0 > m.homeScore.getD 0
    · rw [if_pos hlt,
          map_team_bumpRow m.home (fun r => { r with losses := r.losses + 1 }) (fun r => rfl),
          map_team_bumpRow m.away (fun r => { r with wins := r.wins + 1, points := r.points + 3 }) (fun r => rfl),
          map_team_bumpRow m.away (fun r => { r with goalsFor := r.goalsFor + m.awayScore.getD 0, goalsAgainst := r.goalsAgainst + m.homeScore.getD 0 }) (fun r => rfl),
          map_team_bumpRow m.home (fun r => { r with goalsFor := r.goalsFor + m.homeScore.getD 0, goalsAgainst := r.goalsAgainst + m.awayScore.getD 0 }) (fun r => rfl)]
    · rw [if_neg hlt,
          map_team_bumpRow m.away (fun r => { r with draws := r.draws + 1, points := r.points + 1 }) (fun r => rfl),
          map_team_bumpRow m.home (fun r => { r with draws := r.draws + 1, points := r.points + 1 }) (fun r => rfl),
          map_team_bumpRow m.away (fun r => { r with goalsFor := r.goalsFor + m.awayScore.getD 0, goalsAgainst := r.goalsAgainst + m.homeScore.getD 0 }) (fun r => rfl),
          map_team_bumpRow m.home (fun r => { r with goalsFor := r.goalsFor + m.homeScore.getD 0, goalsAgainst := r.goalsAgainst + m.awayScore.getD 0 }) (fun r => rfl)]

theorem map_team_foldl {α : Type} (step : List Row → α → List Row)
    (hstep : ∀ rows m, (step rows m).map Row.team = rows.map Row.team) :
    ∀ (ms : List α) (rows : List Row),
      ((ms.foldl step rows).map Row.team) = rows.map Row.team := by
  intro ms
  induction ms with
  | nil => intro rows; rw [List.foldl_nil]
  | cons m ms ih =>
    intro rows
    rw [List.foldl_cons, ih, hstep]

theorem map_team_setGoalDiff (rows : List Row) :
    (setGoalDiff rows).map Row.team = rows.map Row.team := by
  rw [setGoalDiff, List.map_map]
  apply List.map_congr_left
  intro r _
  rfl

theorem standingsUnsorted_map_team (teams : List Nat) (ms : List FMatch)
    (groupName : List Char) :
    (standingsUnsorted teams ms groupName).map Row.team = teams := by
  rw [standingsUnsorted, map_team_setGoalDiff,
      map_team_foldl addStats map_team_addStats,
      map_team_foldl addPlayed map_team_addPlayed,
      List.map_map]
  have h : (Row.team ∘ initRow) = fun t => t := by
    funext t; rfl
  rw [h]
  exact List.map_id teams

theorem rowFor_of_mem (r : Row) :
    ∀ rows : List Row, (rows.map Row.team).Nodup → r ∈ rows →
      rowFor r.team rows = some r := by
  intro rows
  induction rows with
  | nil => intro _ h; cases h
  | cons a rest ih =>
    intro hnd hmem
    rw [List.map_cons, List.nodup_cons] at hnd
    rcases List.mem_cons.mp hmem with rfl | hmem2
    · rw [rowFor]
      rw [List.find?_cons_of_pos]
      simp
    · have hne : ¬(a.team = r.team) := by
        intro he
        exact hnd.1 (he ▸ List.mem_map.mpr ⟨r, hmem2, rfl⟩)
      rw [rowFor]
      rw [List.find?_cons_of_neg]
      · exact ih hnd.2 hmem2
      · simp [hne]

theorem sum_map_ite_countP (f : FMatch → Nat) (p : FMatch → Prop) [DecidablePred p] :
    ∀ ms : List FMatch, (∀ m ∈ ms, f m = if p m then 1 else 0) →
      (ms.map f).sum = ms.countP (fun m => decide (p m)) := by
  intro ms
  induction ms with
  | nil => intro _; rfl
  | cons m ms ih =>
    intro h
    rw [List.map_cons, List.sum_cons, List.countP_cons,
        ih (fun x hx => h x (List.mem_cons_of_mem m hx)),
        h m (List.mem_cons_self m ms)]
    by_cases hc : p m <;> simp [hc] <;> omega

theorem playedC_eq (t : Nat) (m : FMatch) (hne : m.home ≠ m.away) :
    playedC t m = if t = m.home ∨ t = m.away then 1 else 0 := by
  by_cases h1 : t = m.home
  · by_cases h2 : t = m.away
    · exact absurd (h1.symm.trans h2) hne
    · simp [playedC, h1, h2, hne]
  · by_cases h2 : t = m.away <;> simp [playedC, h1, h2, hne, Ne.symm hne]

theorem winC_eq (t : Nat) (m : FMatch) :
    winC t m = if (m.homeScore.getD 0 > m.awayScore.getD 0 ∧ t = m.home) ∨
        (m.awayScore.getD 0 > m.homeScore.getD 0 ∧ t = m.away) then 1 else 0 := by
  by_cases hgt : m.homeScore.getD 0 > m.awayScore.getD 0
  · have hng : ¬(m.awayScore.getD 0 > m.homeScore.getD 0) := by omega
    by_cases h1 : t = m.home <;> simp [winC, hgt, hng, h1]
  · by_cases h2 : t = m.away <;> simp [winC, hgt, h2]

theorem lossC_eq (t : Nat) (m : FMatch) :
    lossC t m = if (m.homeScore.getD 0 > m.awayScore.getD 0 ∧ t = m.away) ∨
        (m.awayScore.getD 0 > m.homeScore.getD 0 ∧ t = m.home) then 1 else 0 := by
  by_cases hgt : m.homeScore.getD 0 > m.awayScore.getD 0
  · have hng : ¬(m.awayScore.getD 0 > m.homeScore.getD 0) := by omega
    by_cases h2 : t = m.away <;> simp [lossC, hgt, hng, h2]
  · by_cases h1 : t = m.home <;> simp [lossC, hgt, h1]

theorem drawC_eq (t : Nat) (m : FMatch) (hne : m.home ≠ m.away) :
    drawC t m = if m.homeScore.getD 0 = m.awayScore.getD 0 ∧
        (t = m.home ∨ t = m.away) then 1 else 0 := by
  by_cases heq : m.homeScore.getD 0 = m.awayScore.getD 0
  · by_cases h1 : t = m.home
    · by_cases h2 : t = m.away
      · exact absurd (h1.symm.trans h2) hne
      · simp [drawC, heq, h1, h2, hne]
    · by_cases h2 : t = m.away <;> simp [drawC, heq, h1, h2, hne, Ne.symm hne]
  · simp [drawC, heq]

theorem sum_map_ptC (t : Nat) : ∀ ms : List FMatch,
    (ms.map (ptC t)).sum = 3 * (ms.map (winC t)).sum + (ms.map (drawC t)).sum := by
  intro ms
  induction ms with
  | nil => rfl
  | cons m ms ih =>
    simp only [List.map_cons, List.sum_cons, ih, ptC]
    omega

theorem rowFor_standingsUnsorted (teams : List Nat) (ms : List FMatch)
    (groupName : List Char) (t : Nat) (ht : t ∈ teams) :
    rowFor t (standingsUnsorted teams ms groupName) = some
      { team := t,
        played := ((groupMatches ms groupName).map (playedC t)).sum,
        wins := ((finishedGroupMatches ms groupName).map (winC t)).sum,
        draws := ((finishedGroupMatches ms groupName).map (drawC t)).sum,
        losses := ((finishedGroupMatches ms groupName).map (lossC t)).sum,
        goalsFor := ((finishedGroupMatches ms groupName).map (gfC t)).sum,
        goalsAgainst := ((finishedGroupMatches ms groupName).map (gaC t)).sum,
        goalDiff := ((((finishedGroupMatches ms groupName).map (gfC t)).sum : Int) -
          ((((finishedGroupMatches ms groupName).map (gaC t)).sum : Int))),
        points := ((finishedGroupMatches ms groupName).map (ptC t)).sum } := by
  rw [standingsUnsorted, setGoalDiff,
      rowFor_map t
        (fun r => { r with goalDiff := (r.goalsFor : Int) - (r.goalsAgainst : Int) })
        (fun r => rfl),
      rowFor_foldl t addStats (statsEff t) (rowFor_addStats t),
      rowFor_foldl t addPlayed (playedEff t) (rowFor_addPlayed t),
      rowFor_initRows t teams ht]
  simp only [Option.map_some']
  rw [foldl_playedEff, foldl_statsEff]
  simp [initRow]

theorem keyLt_iff (a b : Nat × Int × Nat) :
    keyLt a b = true ↔ a.1 < b.1 ∨ (a.1 = b.1 ∧ (a.2.1 < b.2.1 ∨
      (a.2.1 = b.2.1 ∧ a.2.2 < b.2.2))) := by
  simp [keyLt]

theorem keyLt_irrefl (a : Nat × Int × Nat) : keyLt a a = false := by
  simp [keyLt]

theorem keyLt_asymm (a b : Nat × Int × Nat) (h1 : keyLt a b = true)
    (h2 : keyLt b a = true) : False := by
  rw [keyLt_iff] at h1 h2
  omega

theorem standingsGE_total : ∀ a b : Row, standingsGE a b ∨ standingsGE b a := by
  intro a b
  unfold standingsGE
  by_cases h : keyLt (standingKey a) (standingKey b) = false
  · exact Or.inl h
  · right
    rw [Bool.not_eq_false] at h
    rw [Bool.eq_false_iff]
    intro h2
    exact keyLt_asymm _ _ h2 h

theorem standingsGE_trans : ∀ a b c : Row,
    standingsGE a b → standingsGE b c → standingsGE a c := by
  intro a b c hab hbc
  unfold standingsGE at hab hbc ⊢
  rw [Bool.eq_false_iff, ne_eq, keyLt_iff] at hab hbc ⊢
  omega

theorem filter_orderedInsert_pos (a : Row) (k : Nat × Int × Nat)
    (ha : standingKey a = k) :
    ∀ l : List Row,
      (List.orderedInsert standingsGE a l).filter
          (fun r => decide (standingKey r = k)) =
        a :: l.filter (fun r => decide (standingKey r = k)) := by
  intro l
  induction l with
  | nil => simp [List.orderedInsert, ha]
  | cons b l ih =>
    by_cases hab : standingsGE a b
    · simp only [List.orderedInsert, if_pos hab]
      rw [List.filter_cons, if_pos (by simp [ha])]
    · simp only [List.orderedInsert, if_neg hab]
      have hbk : ¬(standingKey b = k) := by
        unfold standingsGE at hab
        rw [Bool.not_eq_false] at hab
        intro hbk
        rw [ha, hbk, keyLt_irrefl] at hab
        cases hab
      rw [List.filter_cons, if_neg (by simp [hbk]), ih,
          List.filter_cons, if_neg (by simp [hbk])]

theorem filter_orderedInsert_neg (a : Row) (k : Nat × Int × Nat)
    (ha : ¬(standingKey a = k)) :
    ∀ l : List Row,
      (List.orderedInsert standingsGE a l).filter
          (fun r => decide (standingKey r = k)) =
        l.filter (fun r => decide (standingKey r = k)) := by
  intro l
  induction l with
  | nil => simp [List.orderedInsert, ha]
  | cons b l ih =>
    by_cases hab : standingsGE a b
    · simp only [List.orderedInsert, if_pos hab]
      rw [List.filter_cons, if_neg (by simp [ha])]
    · simp only [List.orderedInsert, if_neg hab]
      rw [List.filter_cons, ih, List.filter_cons]

theorem filter_insertionSort_key (k : Nat × Int × Nat) :
    ∀ l : List Row,
      (List.insertionSort standingsGE l).filter
          (fun r => decide (standingKey r = k)) =
        l.filter (fun r => decide (standingKey r = k)) := by
  intro l
  induction l with
  | nil => rfl
  | cons a l ih =>
    simp only [List.insertionSort]
    by_cases ha : standingKey a = k
    · rw [filter_orderedInsert_pos a k ha, ih, List.filter_cons, if_pos (by simp [ha])]
    · rw [filter_orderedInsert_neg a k ha, ih, List.filter_cons, if_neg (by simp [ha])]

/-- CLAIM C5: calculate_group_standings returns one row per input team;
played counts every group match (any status) referencing the team; wins,
draws, losses, goals_for and goals_against accumulate only over finished
group matches with 3 points per win and 1 per draw; goal_difference is
goals_for minus goals_against; and rows are sorted by (points,
goal_difference, goals_for) descending, with fully tied rows keeping their
input relative order (stable sort). -/
theorem group_standings_spec (teams : List Nat) (ms : List FMatch)
    (groupName : List Char) (hnd : teams.Nodup)
    (hww : ∀ m ∈ ms, m.home ≠ m.away) :
    ((calculate_group_standings teams ms groupName).map Row.team).Perm teams ∧
    (∀ r ∈ calculate_group_standings teams ms groupName,
      r.played = (groupMatches ms groupName).countP
          (fun m => decide (r.team = m.home ∨ r.team = m.away)) ∧
      r.wins = (finishedGroupMatches ms groupName).countP
          (fun m => decide ((m.homeScore.getD 0 > m.awayScore.getD 0 ∧ r.team = m.home) ∨
            (m.awayScore.getD 0 > m.homeScore.getD 0 ∧ r.team = m.away))) ∧
      r.draws = (finishedGroupMatches ms groupName).countP
          (fun m => decide (m.homeScore.getD 0 = m.awayScore.getD 0 ∧
            (r.team = m.home ∨ r.team = m.away))) ∧
      r.losses = (finishedGroupMatches ms groupName).countP
          (fun m => decide ((m.homeScore.getD 0 > m.awayScore.getD 0 ∧ r.team = m.away) ∨
            (m.awayScore.getD 0 > m.homeScore.getD 0 ∧ r.team = m.home))) ∧
      r.goalsFor = ((finishedGroupMatches ms groupName).map (gfC r.team)).sum ∧
      r.goalsAgainst = ((finishedGroupMatches ms groupName).map (gaC r.team)).sum ∧
      r.points = 3 * r.wins + r.draws ∧
      r.goalDiff = (r.goalsFor : Int) - (r.goalsAgainst : Int)) ∧
    (calculate_group_standings teams ms groupName).Pairwise standingsGE ∧
    (∀ k : Nat × Int × Nat,
      (calculate_group_standings teams ms groupName).filter
          (fun r => decide (standingKey r = k)) =
        (standingsUnsorted teams ms groupName).filter
          (fun r => decide (standingKey r = k))) := by
  have hAG : ∀ m ∈ groupMatches ms groupName, m.home ≠ m.away :=
    fun m hm => hww m (List.mem_filter.mp hm).1
  have hFG : ∀ m ∈ finishedGroupMatches ms groupName, m.home ≠ m.away :=
    fun m hm => hAG m (List.mem_filter.mp hm).1
  refine ⟨?_, ?_, ?_, ?_⟩
  · have hp := List.perm_insertionSort standingsGE (standingsUnsorted teams ms groupName)
    have hq := hp.map Row.team
    rw [standingsUnsorted_map_team] at hq
    exact hq
  · intro r hr
    have hrU : r ∈ standingsUnsorted teams ms groupName :=
      (List.perm_insertionSort standingsGE
        (standingsUnsorted teams ms groupName)).mem_iff.mp hr
    have hndU : ((standingsUnsorted teams ms groupName).map Row.team).Nodup := by
      rw [standingsUnsorted_map_team]; exact hnd
    have hteam : r.team ∈ teams := by
      rw [← standingsUnsorted_map_team teams ms groupName]
      exact List.mem_map.mpr ⟨r, hrU, rfl⟩
    have hlook := rowFor_of_mem r _ hndU hrU
    rw [rowFor_standingsUnsorted teams ms groupName r.team hteam] at hlook
    have hrec := Option.some.inj hlook
    refine ⟨?_, ?_, ?_, ?_, ?_, ?_, ?_, ?_⟩
    · rw [← hrec]
      exact sum_map_ite_countP (playedC r.team)
        (fun m => r.team = m.home ∨ r.team = m.away)
        (groupMatches ms groupName)
        (fun m hm => playedC_eq r.team m (hAG m hm))
    · rw [← hrec]
      exact sum_map_ite_countP (winC r.team)
        (fun m => (m.homeScore.getD 0 > m.awayScore.getD 0 ∧ r.team = m.home) ∨
          (m.awayScore.getD 0 > m.homeScore.getD 0 ∧ r.team = m.away))
        (finishedGroupMatches ms groupName)
        (fun m _ => winC_eq r.team m)
    · rw [← hrec]
      exact sum_map_ite_countP (drawC r.team)
        (fun m => m.homeScore.getD 0 = m.awayScore.getD 0 ∧
          (r.team = m.home ∨ r.team = m.away))
        (finishedGroupMatches ms groupName)
        (fun m hm => drawC_eq r.team m (hFG m hm))
    · rw [← hrec]
      exact sum_map_ite_countP (lossC r.team)
        (fun m => (m.homeScore.getD 0 > m.awayScore.getD 0 ∧ r.team = m.away) ∨
          (m.awayScore.getD 0 > m.homeScore.getD 0 ∧ r.team = m.home))
        (finishedGroupMatches ms groupName)
        (fun m _ => lossC_eq r.team m)
    · rw [← hrec]
    · rw [← hrec]
    · rw [← hrec]
      exact sum_map_ptC r.team (finishedGroupMatches ms groupName)
    · rw [← hrec]
  · have i1 : IsTotal Row standingsGE := ⟨standingsGE_total⟩
    have i2 : IsTrans Row standingsGE := ⟨standingsGE_trans⟩
    exact List.sorted_insertionSort standingsGE (standingsUnsorted teams ms groupName)
  · intro k
    exact filter_insertionSort_key k (standingsUnsorted teams ms groupName)

theorem group_standings_spec_witness :
    (([1, 2, 3] : List Nat).Nodup ∧ (∀ m ∈ wC5ms, m.home ≠ m.away)) ∧
    (    ((calculate_group_standings [1, 2, 3] wC5ms (strL "Group A")).map Row.team).Perm [1, 2, 3] ∧
    (∀ r ∈ calculate_group_standings [1, 2, 3] wC5ms (strL "Group A"),
      r.played = (groupMatches wC5ms (strL "Group A")).countP
          (fun m => decide (r.team = m.home ∨ r.team = m.away)) ∧
      r.wins = (finishedGroupMatches wC5ms (strL "Group A")).countP
          (fun m => decide ((m.homeScore.getD 0 > m.awayScore.getD 0 ∧ r.team = m.home) ∨
            (m.awayScore.getD 0 > m.homeScore.getD 0 ∧ r.team = m.away))) ∧
      r.draws = (finishedGroupMatches wC5ms (strL "Group A")).countP
          (fun m => decide (m.homeScore.getD 0 = m.awayScore.getD 0 ∧
            (r.team = m.home ∨ r.team = m.away))) ∧
      r.losses = (finishedGroupMatches wC5ms (strL "Group A")).countP
          (fun m => decide ((m.homeScore.getD 0 > m.awayScore.getD 0 ∧ r.team = m.away) ∨
            (m.awayScore.getD 0 > m.homeScore.getD 0 ∧ r.team = m.home))) ∧
      r.goalsFor = ((finishedGroupMatches wC5ms (strL "Group A")).map (gfC r.team)).sum ∧
      r.goalsAgainst = ((finishedGroupMatches wC5ms (strL "Group A")).map (gaC r.team)).sum ∧
      r.points = 3 * r.wins + r.draws ∧
      r.goalDiff = (r.goalsFor : Int) - (r.goalsAgainst : Int)) ∧
    (calculate_group_standings [1, 2, 3] wC5ms (strL "Group A")).Pairwise standingsGE ∧
    (∀ k : Nat × Int × Nat,
      (calculate_group_standings [1, 2, 3] wC5ms (strL "Group A")).filter
          (fun r => decide (standingKey r = k)) =
        (standingsUnsorted [1, 2, 3] wC5ms (strL "Group A")).filter
          (fun r => decide (standingKey r = k)))) :=
  ⟨⟨by decide, by decide⟩,
    group_standings_spec [1, 2, 3] wC5ms (strL "Group A") (by decide) (by decide)⟩
